import Mathlib

/-!
Shallow embedding of the pycas-sso CAS client: the response parsers, the error
classifier, the plain-text validate readers, the login result construction and
the URL/query machinery, translated from `src/pycas_sso`.  Theorems at the end
of the file settle the specification claims against these definitions.
-/

namespace PycasSso

/-- An XML element as exposed by `lxml.etree`: namespace URI, local tag name,
attributes, text (`el.text`, which is Python `None` for a textually empty
element), and child elements in document order. -/
inductive XmlElem : Type where
  | mk (ns : Option String) (localname : String) (attrs : List (String × String))
       (text : Option String) (children : List XmlElem)

def XmlElem.ns : XmlElem → Option String
  | .mk n _ _ _ _ => n

def XmlElem.localname : XmlElem → String
  | .mk _ t _ _ _ => t

def XmlElem.attrs : XmlElem → List (String × String)
  | .mk _ _ a _ _ => a

def XmlElem.text : XmlElem → Option String
  | .mk _ _ _ t _ => t

def XmlElem.children : XmlElem → List XmlElem
  | .mk _ _ _ _ c => c

/-- `el.get(name)`: attribute lookup. -/
def XmlElem.get (e : XmlElem) (name : String) : Option String :=
  e.attrs.lookup name

/-- Does `e` carry the namespace-qualified tag `{nsUri}nm`? -/
def XmlElem.isTag (e : XmlElem) (nsUri nm : String) : Bool :=
  e.ns == some nsUri && e.localname == nm

/-- `el.find("p:name", namespaces=...)`: first matching direct child. -/
def XmlElem.findChild (e : XmlElem) (nsUri nm : String) : Option XmlElem :=
  e.children.find? (fun c => c.isTag nsUri nm)

mutual

/-- All subelements strictly below `e`, in document (preorder) order, as an
`ElementTree` `.//` path iterates them. -/
def XmlElem.descendants : XmlElem → List XmlElem
  | .mk _ _ _ _ cs => descList cs

def descList : List XmlElem → List XmlElem
  | [] => []
  | c :: cs => c :: (XmlElem.descendants c ++ descList cs)

end

/-- `el.find(".//p:name", namespaces=...)`: first matching descendant. -/
def XmlElem.findDesc (e : XmlElem) (nsUri nm : String) : Option XmlElem :=
  e.descendants.find? (fun c => c.isTag nsUri nm)

/-- `el.findall(".//p:name", namespaces=...)`: all matching descendants in
document order. -/
def XmlElem.findallDesc (e : XmlElem) (nsUri nm : String) : List XmlElem :=
  e.descendants.filter (fun c => c.isTag nsUri nm)

/-- The CAS XML namespace (`xml.py`, `XML_CAS_NS`). -/
def XML_CAS_NS : String := "http://www.yale.edu/tp/cas"

/-- SAML 1.0 protocol namespace (`xml.py`, `XML_SAML_NS["samlp"]`). -/
def SAML_P_NS : String := "urn:oasis:names:tc:SAML:1.0:protocol"

/-- SAML 1.0 assertion namespace (`xml.py`, `XML_SAML_NS["saml"]`). -/
def SAML_A_NS : String := "urn:oasis:names:tc:SAML:1.0:assertion"

/-- SAML 2.0 protocol namespace (`xml.py`, `XML_SAML_2_NS["samlp"]`). -/
def SAML2_P_NS : String := "urn:oasis:names:tc:SAML:2.0:protocol"

/-- `AUTHENTICATION_ERRORS` from `errors.py` (exact sentences, including the
source's spelling). -/
def AUTHENTICATION_ERRORS : List (String × String) := [
  ("INVALID_REQUEST", "Not all of the required request parameters were present."),
  ("INVALID_TICKET_SPEC", "Failure to meet the requirements of validation specification."),
  ("UNAUTHORIZED_SERVICE_PROXY", "The service is not authorized to perform proxy authentication."),
  ("INVALID_PROXY_CALLBACK", "The proxy callback specified is invalid. The credentials specified for proxy authentication do not meet the security requirements."),
  ("INVALID_TICKET", "The ticket provided was not valid, or the ticket did not come from an initial login and renew was set on validation."),
  ("INVALID_SERVICE", "The ticket provided was valid, but the service specified did not match the service associated with the ticket."),
  ("INTERNAL_ERROR", "An internal error occured during ticket validation.")
]

/-- `PROXY_ERRORS` from `errors.py`. -/
def PROXY_ERRORS : List (String × String) := [
  ("INVALID_REQUEST", "Not all of the required request parameters were present."),
  ("UNAUTHORIZED_SERVICE", "Service is unauthorized to perform the proxy request."),
  ("INTERNAL_ERROR", "An internal error occured during ticket validation.")
]

/-- `CASServiceAuthenticationFailure.__init__`: besides the client reference the
exception stores only `errmsg`, passed to `Exception.__init__`; this models the
resulting Python exception `args` tuple.  (`code` itself is not stored.) -/
def casAuthenticationFailureArgs (code message : Option String) : List (Option String) :=
  [match code with
   | some c =>
     match AUTHENTICATION_ERRORS.lookup c with
     | some fixed => some fixed
     | none => message
   | none => message]

/-- `CASProxyFailure.__init__`, same shape with `PROXY_ERRORS`. -/
def casProxyFailureArgs (code message : Option String) : List (Option String) :=
  [match code with
   | some c =>
     match PROXY_ERRORS.lookup c with
     | some fixed => some fixed
     | none => message
   | none => message]

/-- Exceptions escaping the embedded code paths.  For the two CAS failure
exception classes we record the `code`/`message` arguments passed at the raise
site (the class itself keeps only the classified message, see
`casAuthenticationFailureArgs`). -/
inductive PyErr : Type where
  | casAuthenticationFailure (code message : Option String)
  | casProxyFailure (code message : Option String)
  | valueError (msg : String)
  | typeError
  | attributeError
  | stopIteration
  deriving DecidableEq, Repr

/-- A value of the Python attribute dict built by the parsers: a single
occurrence collapses to its scalar text, repeated occurrences stay a list. -/
inductive PyAttrVal : Type where
  | scalar (t : Option String)
  | multi (ts : List (Option String))
  deriving DecidableEq, Repr

/-- `CASServiceValidateData` (`schemas.py`), without the client reference.
Attribute keys are `Option String` because the SAML parser keys the same dict
by the `AttributeName` attribute, which may be missing (Python `None`). -/
structure CASServiceValidateData : Type where
  username : Option String
  proxy_granting_ticket : Option String
  attrs : Option (List (Option String × PyAttrVal))
  proxies : Option (List (Option String))
  deriving DecidableEq, Repr

/-- `CASProxyData` (`schemas.py`), without the client reference. -/
structure CASProxyData : Type where
  proxy_ticket : Option String
  deriving DecidableEq, Repr

/-- One step of the attribute-collection loops
(`if name not in attrs: attrs[name] = list()` followed by
`attrs[name].append(...)`): append `v` under key `k`, creating the key at the
end on first occurrence (Python dict insertion order). -/
def multimapAdd {κ : Type} [DecidableEq κ] {ν : Type} :
    List (κ × List ν) → κ → ν → List (κ × List ν)
  | [], k, v => [(k, [v])]
  | (k', vs) :: rest, k, v =>
    if k = k' then (k', vs ++ [v]) :: rest
    else (k', vs) :: multimapAdd rest k v

/-- The whole collection loop, over an explicit list of key/value pairs. -/
def buildMultimap {κ : Type} [DecidableEq κ] {ν : Type} (ps : List (κ × ν)) :
    List (κ × List ν) :=
  ps.foldl (fun m p => multimapAdd m p.1 p.2) []

/-- `v[0] if len(v) == 1 else v`. -/
def collapseVal : List (Option String) → PyAttrVal
  | [t] => .scalar t
  | ts => .multi ts

/-- `{k: v[0] if len(v) == 1 else v for k, v in attrs.items()}`. -/
def collapseAttrs {κ : Type} (m : List (κ × List (Option String))) :
    List (κ × PyAttrVal) :=
  m.map (fun p => (p.1, collapseVal p.2))

/-- `CASClientBase._parse_service_validate_content` (`clients/core.py`).  This
function is shared verbatim by `service_validate`/`aservice_validate` and (with
`proxy_validate = true`) by `proxy_validate`/`aproxy_validate`, so it covers
both execution modes. -/
def parse_service_validate_content (root : XmlElem) (proxy_validate : Bool) :
    Except PyErr CASServiceValidateData :=
  match root.findChild XML_CAS_NS "authenticationSuccess" with
  | some success_el =>
    let username : Option String :=
      match success_el.findChild XML_CAS_NS "user" with
      | some user_el => user_el.text
      | none => some ""
    let attrs : Option (List (Option String × PyAttrVal)) :=
      match success_el.findChild XML_CAS_NS "attributes" with
      | some attrs_el =>
        some (collapseAttrs
          (attrs_el.children.foldl
            (fun m child => multimapAdd m (some child.localname) child.text) []))
      | none => none
    let pgt : Option String :=
      match success_el.findChild XML_CAS_NS "proxyGrantingTicket" with
      | some pgt_elem => pgt_elem.text
      | none => none
    let proxies : Option (List (Option String)) :=
      if proxy_validate then
        match success_el.findChild XML_CAS_NS "proxies" with
        | some proxies_el => some (proxies_el.children.map XmlElem.text)
        | none => none
      else none
    .ok ⟨username, pgt, attrs, proxies⟩
  | none =>
    match root.findChild XML_CAS_NS "authenticationFailure" with
    | some failure_el =>
      .error (.casAuthenticationFailure (failure_el.get "code") failure_el.text)
    | none => .error (.valueError "Incorrect XML content for serviceValidate")

/-- `CASClientBase._parse_proxy_content` (`clients/core.py`).  Note the
fall-through to the failure branch when `proxySuccess` has no `proxyTicket`
child (the Python `if` simply does not return). -/
def parse_proxy_content (root : XmlElem) : Except PyErr CASProxyData :=
  match
    (match root.findChild XML_CAS_NS "proxySuccess" with
     | some success_el =>
       match success_el.findChild XML_CAS_NS "proxyTicket" with
       | some proxy_el => some (CASProxyData.mk proxy_el.text)
       | none => none
     | none => none) with
  | some d => .ok d
  | none =>
    match root.findChild XML_CAS_NS "proxyFailure" with
    | some failure_el =>
      .error (.casProxyFailure (failure_el.get "code") failure_el.text)
    | none => .error (.valueError "Incorrect XML content for proxy")

/-- The SAML attribute-collection double loop of
`_parse_saml_validate_content`: over all `saml:Attribute` descendants, over
their children, keeping `AttributeValue` children, keyed by the
`AttributeName` attribute. -/
def samlCollectAttrs (attrs_all : List XmlElem) : List (Option String × List (Option String)) :=
  attrs_all.foldl
    (fun m attr_el =>
      attr_el.children.foldl
        (fun m child =>
          if child.localname == "AttributeValue" then
            multimapAdd m (attr_el.get "AttributeName") child.text
          else m)
        m)
    []

/-- `v[6:]`: Python slicing by code points (total; shorter strings yield
`""`). -/
def strDrop (s : String) (n : Nat) : String :=
  ⟨s.data.drop n⟩

/-- `CASClientBase._parse_saml_validate_content` (`clients/core.py`).  A
`StatusCode` without a `Value` attribute makes Python slice `None`
(`TypeError`). -/
def parse_saml_validate_content (root : XmlElem) :
    Except PyErr CASServiceValidateData :=
  match root.findDesc SAML_P_NS "StatusCode" with
  | some status_el =>
    match status_el.get "Value" with
    | none => .error .typeError
    | some v =>
      let status_code := strDrop v 6
      if status_code = "Success" then
        let username : Option String :=
          match root.findDesc SAML_A_NS "NameIdentifier" with
          | some user_el => user_el.text
          | none => some ""
        let attrs := collapseAttrs (samlCollectAttrs (root.findallDesc SAML_A_NS "Attribute"))
        .ok ⟨username, none, some attrs, none⟩
      else
        let message : Option String :=
          match status_el.findChild SAML_P_NS "StatusMessage" with
          | some message_el => message_el.text
          | none => some ""
        .error (.casAuthenticationFailure (some status_code) message)
  | none => .error (.valueError "Incorrect XML content for samlValidate")

/-- A naive (no timezone) datetime as built by `datetime.strptime`. -/
structure PyDateTime : Type where
  year : Nat
  month : Nat
  day : Nat
  hour : Nat
  minute : Nat
  second : Nat
  deriving DecidableEq, Repr

/-- Days in a month under the proleptic Gregorian calendar used by
`datetime`. -/
def daysInMonth (year month : Nat) : Nat :=
  if month = 2 then
    if year % 4 = 0 && (year % 100 != 0 || year % 400 = 0) then 29 else 28
  else if month = 4 || month = 6 || month = 9 || month = 11 then 30
  else 31

/-- One numeric field of the `strptime` regex: alternations such as
`1[0-2]|0[1-9]|[1-9]` try the two-digit forms first and fall back to a single
digit.  `lo2`/`hi2` bound the two-digit alternatives, `lo1` bounds the
single-digit one (all formats allow single digits up to 9).  Returns the value
and the remaining characters. -/
def parseNum2or1 (lo2 hi2 lo1 : Nat) : List Char → Option (Nat × List Char)
  | c1 :: c2 :: rest =>
    if c1.isDigit && c2.isDigit then
      let n := (c1.toNat - 48) * 10 + (c2.toNat - 48)
      if lo2 ≤ n ∧ n ≤ hi2 then some (n, rest)
      else none
    else if c1.isDigit then
      let n := c1.toNat - 48
      if lo1 ≤ n ∧ n ≤ 9 then some (n, c2 :: rest) else none
    else none
  | [c1] =>
    if c1.isDigit then
      let n := c1.toNat - 48
      if lo1 ≤ n ∧ n ≤ 9 then some (n, []) else none
    else none
  | [] => none

/-- A literal character of the `strptime` format; the `_strptime` regex is
compiled with `re.IGNORECASE`, so letters match case-insensitively. -/
def parseLit (c : Char) : List Char → Option (List Char)
  | x :: rest => if x.toLower = c.toLower then some rest else none
  | [] => none

/-- Exactly four digits (`%Y`). -/
def parseYear4 : List Char → Option (Nat × List Char)
  | c1 :: c2 :: c3 :: c4 :: rest =>
    if c1.isDigit && c2.isDigit && c3.isDigit && c4.isDigit then
      some ((c1.toNat - 48) * 1000 + (c2.toNat - 48) * 100 +
            (c3.toNat - 48) * 10 + (c4.toNat - 48), rest)
    else none
  | _ => none

/-- `datetime.strptime(s, "%Y-%m-%dT%H:%M:%SZ")`, returning `none` where
Python raises `ValueError` (regex mismatch, unconverted trailing data, or an
out-of-range value rejected by the `datetime` constructor). -/
def strptimeZ (s : String) : Option PyDateTime :=
  match parseYear4 s.data with
  | none => none
  | some (y, r1) =>
  match parseLit '-' r1 with
  | none => none
  | some r2 =>
  match parseNum2or1 1 12 1 r2 with
  | none => none
  | some (mo, r3) =>
  match parseLit '-' r3 with
  | none => none
  | some r4 =>
  match parseNum2or1 1 31 1 r4 with
  | none => none
  | some (d, r5) =>
  match parseLit 'T' r5 with
  | none => none
  | some r6 =>
  match parseNum2or1 0 23 0 r6 with
  | none => none
  | some (h, r7) =>
  match parseLit ':' r7 with
  | none => none
  | some r8 =>
  match parseNum2or1 0 59 0 r8 with
  | none => none
  | some (mi, r9) =>
  match parseLit ':' r9 with
  | none => none
  | some r10 =>
  match parseNum2or1 0 61 0 r10 with
  | none => none
  | some (sec, r11) =>
  match parseLit 'Z' r11 with
  | none => none
  | some r12 =>
    if r12 = [] then
      if 1 ≤ y ∧ d ≤ daysInMonth y mo ∧ sec ≤ 59 then
        some ⟨y, mo, d, h, mi, sec⟩
      else none
    else none

/-- `issued_at` after `parse_logout_request`: a parsed datetime, or the raw
attribute string when `strptime` raised `ValueError`. -/
inductive IssuedAt : Type where
  | time (dt : PyDateTime)
  | raw (s : String)
  deriving DecidableEq, Repr

/-- `CASLogoutData` (`schemas.py`). -/
structure CASLogoutData : Type where
  request_id : Option String
  issued_at : IssuedAt
  session_id : Option String
  deriving DecidableEq, Repr

/-- `CASClientBase.parse_logout_request` (`clients/core.py`).  The
`SessionIndex` lookup dereferences `.text` on the `find` result, so a missing
element raises `AttributeError`; a missing `IssueInstant` attribute passes
`None` to `strptime`, raising `TypeError`, which the `except ValueError`
does not catch. -/
def parse_logout_request (root : XmlElem) : Except PyErr CASLogoutData :=
  let request_id := root.get "ID"
  match root.findDesc SAML2_P_NS "SessionIndex" with
  | none => .error .attributeError
  | some session_el =>
    let session_id := session_el.text
    match root.get "IssueInstant" with
    | none => .error .typeError
    | some instant =>
      let issued_at : IssuedAt :=
        match strptimeZ instant with
        | some dt => .time dt
        | none => .raw instant
      .ok ⟨request_id, issued_at, session_id⟩

/-- Python whitespace stripped by `str.strip()`/`bytes.strip()` (the ASCII
whitespace characters; the inputs handled here are ASCII protocol text). -/
def isPySpace (c : Char) : Bool :=
  c = ' ' || c = '\t' || c = '\n' || c = '\r' || c = '\x0b' || c = '\x0c'

/-- `s.strip()`. -/
def pyStrip (s : String) : String :=
  ⟨(s.data.dropWhile isPySpace).reverse.dropWhile isPySpace |>.reverse⟩

/-- `CASClient_Requests.fetch_validate` after the HTTP request
(`clients/requests.py`): the body is consumed through `iter_lines`, whose
items carry no line terminators.  The first `next(it)` is outside any `try`,
so an empty body raises `StopIteration`; the second is wrapped in a bare
`except` that degrades to the empty username. -/
def fetch_validate_requests (lines : List String) : Except PyErr String :=
  match lines with
  | [] => .error .stopIteration
  | first :: rest =>
    if first = "yes" then
      .ok (match rest with
           | [] => ""
           | second :: _ => pyStrip second)
    else
      .error (.casAuthenticationFailure (some "VALIDATE_FAILED") (some "Ticket validation failed."))

/-- `rq.content.readline()` on an aiohttp stream: everything up to and
including the first newline (or the whole remainder at EOF). -/
def readline (s : String) : String × String :=
  match s.data.span (fun c => c ≠ '\n') with
  | (line, []) => (⟨line⟩, "")
  | (line, _ :: rest) => (⟨line ++ ['\n']⟩, ⟨rest⟩)

/-- `CASClient_AIOHttp.afetch_validate` after the HTTP request
(`clients/aiohttp.py`): both lines are read with `readline` and passed
through `.strip()` — including the first, which is compared to `"yes"` only
after stripping. -/
def afetch_validate_aiohttp (body : String) : Except PyErr String :=
  let line1 := (readline body).1
  let rest := (readline body).2
  let status := pyStrip line1
  if status = "yes" then
    .ok (pyStrip (readline rest).1)
  else
    .error (.casAuthenticationFailure (some "VALIDATE_FAILED") (some "Ticket validation failed."))

/-- A Python form value as posted by the login methods. -/
inductive PyVal : Type where
  | str (s : String)
  | bool (b : Bool)
  deriving DecidableEq, Repr

/-- `{**data, **extra}`: the keys of `data` in order, values overridden by
`extra` on collision, followed by the new keys of `extra` in order. -/
def dictMerge (data extra : List (String × PyVal)) : List (String × PyVal) :=
  data.map (fun p => (p.1, (extra.lookup p.1).getD p.2)) ++
    extra.filter (fun p => !((data.map Prod.fst).contains p.1))

/-- The login form body, built identically in `CASClient_Requests.login` and
`CASClient_AIOHttp.alogin`. -/
def login_data (service_url username password : String) (remember warn : Bool)
    (extra_data : Option (List (String × PyVal))) : List (String × PyVal) :=
  let data : List (String × PyVal) :=
    [("service", .str service_url), ("username", .str username),
     ("password", .str password), ("remember", .bool remember), ("warn", .bool warn)]
  match extra_data with
  | none => data
  | some extra => dictMerge data extra

/-- The observable part of an HTTP response used by `login`/`alogin`. -/
structure HttpResponse : Type where
  status : Nat
  headers : List (String × String)

/-- Case-insensitive header lookup (both `requests` and `aiohttp` expose
case-insensitive header mappings); header names are ASCII. -/
def headerLookup (headers : List (String × String)) (name : String) : Option String :=
  (headers.find? (fun p => p.1.data.map Char.toLower == name.data.map Char.toLower)).map
    Prod.snd

/-- `requests.Response.is_redirect`: a `location` header is present and the
status is one of `(301, 302, 303, 307, 308)`. -/
def requests_is_redirect (r : HttpResponse) : Bool :=
  (headerLookup r.headers "location").isSome &&
    [301, 302, 303, 307, 308].contains r.status

/-- `CASLoginData` (`schemas.py`), without the client reference. -/
structure CASLoginData : Type where
  success : Bool
  http_status : Nat
  redirect_url : String
  deriving DecidableEq, Repr

/-- Result construction in `CASClient_Requests.login` (`clients/requests.py`):
`rq.headers['location'] if rq.is_redirect else ""`. -/
def login_result_requests (r : HttpResponse) : CASLoginData :=
  ⟨[200, 201, 302].contains r.status, r.status,
   if requests_is_redirect r then (headerLookup r.headers "location").getD "" else ""⟩

/-- Result construction in `CASClient_AIOHttp.alogin` (`clients/aiohttp.py`):
`rq.headers['location'] if 'location' in rq.headers else ""` — the header is
used whenever present, regardless of the status. -/
def login_result_aiohttp (r : HttpResponse) : CASLoginData :=
  ⟨[200, 201, 302].contains r.status, r.status,
   (headerLookup r.headers "location").getD ""⟩

/-- `urllib`'s always-safe characters (ASCII letters, digits and `_.-~`), by
code point. -/
def isAlwaysSafe (n : Nat) : Bool :=
  (48 ≤ n && n ≤ 57) || (65 ≤ n && n ≤ 90) || (97 ≤ n && n ≤ 122) ||
    n = 95 || n = 46 || n = 45 || n = 126

/-- UTF-8 encoding of one character (`str.encode("utf-8")`), as byte values. -/
def utf8EncodeChar (c : Char) : List Nat :=
  let n := c.toNat
  if n < 0x80 then [n]
  else if n < 0x800 then [0xC0 + n / 64, 0x80 + n % 64]
  else if n < 0x10000 then
    [0xE0 + n / 4096, 0x80 + n / 64 % 64, 0x80 + n % 64]
  else
    [0xF0 + n / 262144, 0x80 + n / 4096 % 64, 0x80 + n / 64 % 64, 0x80 + n % 64]

/-- Uppercase hex digit for `d < 16` (CPython formats escapes as `%XX` with
uppercase hex). -/
def hexDigitU (d : Nat) : Char :=
  if d < 10 then Char.ofNat (48 + d) else Char.ofNat (55 + d)

/-- `%XX` for one byte. -/
def percentByte (b : Nat) : List Char :=
  ['%', hexDigitU (b / 16), hexDigitU (b % 16)]

/-- `urllib.parse.quote_plus(s, safe="")` on one character: always-safe
characters pass through, a space becomes `+`, anything else is
percent-encoded per UTF-8 byte. -/
def quotePlusChar (c : Char) : List Char :=
  if isAlwaysSafe c.toNat then [c]
  else if c = ' ' then ['+']
  else (utf8EncodeChar c).flatMap percentByte

/-- `urllib.parse.quote_plus(s, safe="")`, the `quote_via` used by
`urlencode`. -/
def quotePlus (s : List Char) : List Char :=
  s.flatMap quotePlusChar

/-- `urlencode(query)` over string keys and values: `quote_plus` both sides,
join the `k=v` pairs with `&`. -/
def urlencodeChars : List (List Char × List Char) → List Char
  | [] => []
  | [p] => quotePlus p.1 ++ '=' :: quotePlus p.2
  | p :: rest => quotePlus p.1 ++ '=' :: quotePlus p.2 ++ '&' :: urlencodeChars rest

/-- `CASClientBase.login_url(**kwargs)` (`clients/core.py`): provider plus
`/login`, with a query string only when parameters were supplied. -/
def login_url_chars (provider : List Char) (kwargs : List (List Char × List Char)) : List Char :=
  let url := provider ++ "/login".data
  if kwargs.isEmpty then url else url ++ '?' :: urlencodeChars kwargs

def login_url (provider : String) (kwargs : List (String × String)) : String :=
  ⟨login_url_chars provider.data (kwargs.map (fun p => (p.1.data, p.2.data)))⟩

/-- `s.replace('+', ' ')`, the first step of `unquote_plus`. -/
def plusToSpace (s : List Char) : List Char :=
  s.map (fun c => if c = '+' then ' ' else c)

def isHexChar (c : Char) : Bool :=
  (48 ≤ c.toNat && c.toNat ≤ 57) || (65 ≤ c.toNat && c.toNat ≤ 70) ||
    (97 ≤ c.toNat && c.toNat ≤ 102)

def hexCharVal (c : Char) : Nat :=
  if 48 ≤ c.toNat && c.toNat ≤ 57 then c.toNat - 48
  else if 65 ≤ c.toNat && c.toNat ≤ 70 then c.toNat - 55
  else if 97 ≤ c.toNat && c.toNat ≤ 102 then c.toNat - 87
  else 0

/-- One pass-through character of `unquote`'s lexing stage: ASCII characters
become their byte value, others pass through. -/
def symOf (c : Char) : Nat ⊕ Char :=
  if c.toNat < 128 then Sum.inl c.toNat else Sum.inr c

/-- Lexing stage of `unquote`: ASCII characters and valid `%XX` escapes become
bytes (CPython decodes each maximal ASCII chunk as one byte string, so plain
ASCII characters and escaped bytes are decoded together); non-ASCII
characters pass through; a `%` not followed by two hex digits stays a literal
`%` byte (code 37). -/
def toSyms : List Char → List (Nat ⊕ Char)
  | [] => []
  | c :: c1 :: c2 :: rest2 =>
    if c = '%' && isHexChar c1 && isHexChar c2 then
      Sum.inl (16 * hexCharVal c1 + hexCharVal c2) :: toSyms rest2
    else symOf c :: toSyms (c1 :: c2 :: rest2)
  | c :: rest => symOf c :: toSyms rest

/-- Is `b1` a valid lead byte for a 2-byte sequence? -/
def utf8Lead2 (b1 : Nat) : Prop := 0xC2 ≤ b1 ∧ b1 ≤ 0xDF

/-- Is `b1` a valid lead byte for a 3-byte sequence? -/
def utf8Lead3 (b1 : Nat) : Prop := 0xE0 ≤ b1 ∧ b1 ≤ 0xEF

/-- Is `b1` a valid lead byte for a 4-byte sequence? -/
def utf8Lead4 (b1 : Nat) : Prop := 0xF0 ≤ b1 ∧ b1 ≤ 0xF4

/-- Valid continuation bytes for a 3-byte sequence (excluding overlong forms
and surrogates). -/
def utf8Cont3 (b1 b2 b3 : Nat) : Prop :=
  (0x80 ≤ b2 ∧ b2 ≤ 0xBF) ∧ (b1 ≠ 0xE0 ∨ 0xA0 ≤ b2) ∧ (b1 ≠ 0xED ∨ b2 ≤ 0x9F) ∧
    (0x80 ≤ b3 ∧ b3 ≤ 0xBF)

/-- Valid continuation bytes for a 4-byte sequence (excluding overlong forms
and values above U+10FFFF). -/
def utf8Cont4 (b1 b2 b3 b4 : Nat) : Prop :=
  (0x80 ≤ b2 ∧ b2 ≤ 0xBF) ∧ (b1 ≠ 0xF0 ∨ 0x90 ≤ b2) ∧ (b1 ≠ 0xF4 ∨ b2 ≤ 0x8F) ∧
    (0x80 ≤ b3 ∧ b3 ≤ 0xBF) ∧ (0x80 ≤ b4 ∧ b4 ≤ 0xBF)

instance (b1 : Nat) : Decidable (utf8Lead2 b1) := by unfold utf8Lead2; infer_instance
instance (b1 : Nat) : Decidable (utf8Lead3 b1) := by unfold utf8Lead3; infer_instance
instance (b1 : Nat) : Decidable (utf8Lead4 b1) := by unfold utf8Lead4; infer_instance
instance (b1 b2 b3 : Nat) : Decidable (utf8Cont3 b1 b2 b3) := by
  unfold utf8Cont3; infer_instance
instance (b1 b2 b3 b4 : Nat) : Decidable (utf8Cont4 b1 b2 b3 b4) := by
  unfold utf8Cont4; infer_instance

/-- UTF-8 decoding with `errors="replace"`: invalid sequences yield U+FFFD. -/
def utf8DecodeReplace : List Nat → List Char
  | [] => []
  | b1 :: b2 :: b3 :: b4 :: bs =>
    if b1 < 0x80 then Char.ofNat b1 :: utf8DecodeReplace (b2 :: b3 :: b4 :: bs)
    else if utf8Lead2 b1 ∧ 0x80 ≤ b2 ∧ b2 ≤ 0xBF then
      Char.ofNat ((b1 - 0xC0) * 64 + (b2 - 0x80)) :: utf8DecodeReplace (b3 :: b4 :: bs)
    else if utf8Lead3 b1 ∧ utf8Cont3 b1 b2 b3 then
      Char.ofNat ((b1 - 0xE0) * 4096 + (b2 - 0x80) * 64 + (b3 - 0x80)) ::
        utf8DecodeReplace (b4 :: bs)
    else if utf8Lead4 b1 ∧ utf8Cont4 b1 b2 b3 b4 then
      Char.ofNat ((b1 - 0xF0) * 262144 + (b2 - 0x80) * 4096 +
                  (b3 - 0x80) * 64 + (b4 - 0x80)) :: utf8DecodeReplace bs
    else '�' :: utf8DecodeReplace (b2 :: b3 :: b4 :: bs)
  | b1 :: b2 :: b3 :: bs =>
    if b1 < 0x80 then Char.ofNat b1 :: utf8DecodeReplace (b2 :: b3 :: bs)
    else if utf8Lead2 b1 ∧ 0x80 ≤ b2 ∧ b2 ≤ 0xBF then
      Char.ofNat ((b1 - 0xC0) * 64 + (b2 - 0x80)) :: utf8DecodeReplace (b3 :: bs)
    else if utf8Lead3 b1 ∧ utf8Cont3 b1 b2 b3 then
      Char.ofNat ((b1 - 0xE0) * 4096 + (b2 - 0x80) * 64 + (b3 - 0x80)) ::
        utf8DecodeReplace bs
    else '�' :: utf8DecodeReplace (b2 :: b3 :: bs)
  | b1 :: b2 :: bs =>
    if b1 < 0x80 then Char.ofNat b1 :: utf8DecodeReplace (b2 :: bs)
    else if utf8Lead2 b1 ∧ 0x80 ≤ b2 ∧ b2 ≤ 0xBF then
      Char.ofNat ((b1 - 0xC0) * 64 + (b2 - 0x80)) :: utf8DecodeReplace bs
    else '�' :: utf8DecodeReplace (b2 :: bs)
  | [b1] =>
    if b1 < 0x80 then [Char.ofNat b1] else ['�']
termination_by l => l.length
decreasing_by
  all_goals simp [List.length_cons]
  all_goals omega

/-- Decoding stage of `unquote`: accumulate a run of byte symbols (in reverse)
and decode each maximal run as one UTF-8 byte string; pass-through characters
flush the run. -/
def decodeSyms (acc : List Nat) : List (Nat ⊕ Char) → List Char
  | [] => utf8DecodeReplace acc.reverse
  | Sum.inl b :: rest => decodeSyms (b :: acc) rest
  | Sum.inr c :: rest => utf8DecodeReplace acc.reverse ++ c :: decodeSyms [] rest

/-- `urllib.parse.unquote(s)` (encoding utf-8, errors="replace"). -/
def pyUnquote (s : List Char) : List Char :=
  decodeSyms [] (toSyms s)

/-- `urllib.parse.unquote_plus(s)`. -/
def unquotePlus (s : List Char) : List Char :=
  pyUnquote (plusToSpace s)

/-- `qs.split('&')` (the default `parse_qsl` separator). -/
def splitAmp : List Char → List (List Char)
  | [] => [[]]
  | c :: rest =>
    match splitAmp rest with
    | [] => [[c]]
    | field :: fields =>
      if c = '&' then [] :: field :: fields
      else (c :: field) :: fields

/-- `field.split('=', 1)` when `'='` occurs in the field: name and remainder. -/
def splitFirstEq : List Char → Option (List Char × List Char)
  | [] => none
  | c :: rest =>
    if c = '=' then some ([], rest)
    else (splitFirstEq rest).map (fun p => (c :: p.1, p.2))

/-- One field of `parse_qsl`: an empty field is skipped, a field without `=`
is skipped, a field with an empty value is skipped
(`keep_blank_values=False`), otherwise name and value are `unquote_plus`d. -/
def parseQsField (field : List Char) : Option (List Char × List Char) :=
  if field.isEmpty then none
  else
    match splitFirstEq field with
    | none => none
    | some (n, v) =>
      if v.isEmpty then none
      else some (unquotePlus n, unquotePlus v)

/-- `urllib.parse.parse_qsl(qs)` with default arguments. -/
def parse_qsl_chars (qs : List Char) : List (List Char × List Char) :=
  (splitAmp qs).filterMap parseQsField

def afterFirstQmark : List Char → List Char
  | [] => []
  | c :: rest => if c = '?' then rest else afterFirstQmark rest

/-- One-pass description of the query component of `urlparse`/`urlsplit` on a
well-formed URL: the fragment is split off at the first `#`, then the query is
everything after the first `?` of what remains (empty when there is none).
`urlsplit_query` below follows CPython's staged pipeline and is proved to
agree with this on bracket-free inputs. -/
def urlQuery (url : List Char) : List Char :=
  afterFirstQmark (url.takeWhile (fun c => c ≠ '#'))

/-- `urlsplit`'s input sanitisation: strip leading C0 control characters and
spaces (`_WHATWG_C0_CONTROL_OR_SPACE`), then remove every tab, CR and LF
(`_UNSAFE_URL_BYTES_TO_REMOVE`). -/
def urlSanitize (l : List Char) : List Char :=
  (l.dropWhile (fun c => c.toNat ≤ 0x20)).filter
    (fun c => c ≠ '\t' ∧ c ≠ '\r' ∧ c ≠ '\n')

/-- `scheme_chars` of `urllib.parse`: ASCII letters, digits and `+`, `-`,
`.`. -/
def isSchemeChar (c : Char) : Bool :=
  c.isAlpha || c.isDigit || c == '+' || c == '-' || c == '.'

/-- The scheme-removal step of `urlsplit`: when the URL starts with an ASCII
letter followed by scheme characters up to a colon, everything through that
first colon is dropped (the scheme itself plays no role in query
extraction). -/
def removeScheme (l : List Char) : List Char :=
  match l with
  | [] => []
  | c :: rest =>
    if c.isAlpha ∧ ':' ∈ rest ∧ (rest.takeWhile (fun d => d ≠ ':')).all isSchemeChar
    then (rest.dropWhile (fun d => d ≠ ':')).drop 1
    else c :: rest

/-- Characters at which `_splitnetloc` stops scanning the authority. -/
def notNetlocDelim (c : Char) : Bool :=
  c != '/' && c != '?' && c != '#'

/-- `_splitnetloc(url, 2)` guarded by `url[:2] == '//'`: the authority runs
from after `//` to the first `/`, `?` or `#`; the remainder keeps the
delimiter.  Without the `//` prefix there is no authority. -/
def splitNetloc (l : List Char) : List Char × List Char :=
  match l with
  | a :: b :: rest =>
    if a = '/' ∧ b = '/' then (rest.takeWhile notNetlocDelim, rest.dropWhile notNetlocDelim)
    else ([], l)
  | _ => ([], l)

/-- The authority (netloc) `urlsplit` extracts from a URL string. -/
def urlsplitNetloc (l : List Char) : List Char :=
  (splitNetloc (removeScheme (urlSanitize l))).1

/-- What remains of the URL after `urlsplit` has removed scheme and
authority. -/
def urlsplitRest (l : List Char) : List Char :=
  (splitNetloc (removeScheme (urlSanitize l))).2

/-- `if '#' in url: url, fragment = url.split('#', 1)`. -/
def fragSplit (rest : List Char) : List Char :=
  if '#' ∈ rest then rest.takeWhile (fun c => c ≠ '#') else rest

/-- `if '?' in url: url, query = url.split('?', 1)`, keeping the query. -/
def querySplit (u : List Char) : List Char :=
  if '?' ∈ u then (u.dropWhile (fun c => c ≠ '?')).drop 1 else []

/-- Fragment then query split applied to the post-authority remainder. -/
def restQuery (rest : List Char) : List Char :=
  querySplit (fragSplit rest)

/-- The query component of `urlparse(url)`/`urlsplit(url)`, including the
error path: CPython raises `ValueError("Invalid IPv6 URL")` when the
authority contains `[` without `]` or vice versa.  (The additional check
CPython ≥ 3.11 performs on a *balanced* bracketed host, and the NFKC check
`_checknetloc` applies to non-ASCII authorities, lie outside the modelled
fragment; the theorems below only quantify over bracket-free, all-ASCII
URLs, on which every supported CPython version agrees.) -/
def urlsplit_query (url : String) : Except PyErr (List Char) :=
  if ('[' ∈ urlsplitNetloc url.data ∧ ']' ∉ urlsplitNetloc url.data) ∨
     (']' ∈ urlsplitNetloc url.data ∧ '[' ∉ urlsplitNetloc url.data)
  then .error (.valueError "Invalid IPv6 URL")
  else .ok (restQuery (urlsplitRest url.data))

/-- `parse_qs(query)['ticket'][0]` when the key is present, else `''`: the
first pair named `ticket` in the `parse_qsl` list is exactly
`parse_qs(...)['ticket'][0]`. -/
def ticketOfQuery (q : List Char) : List Char :=
  match (parse_qsl_chars q).find? (fun p => p.1 == "ticket".data) with
  | some p => p.2
  | none => []

/-- Ticket extraction along `urlparse`'s non-error path, with the query
described by the one-pass `urlQuery`. -/
def ticket_from_url_chars (url : List Char) : List Char :=
  ticketOfQuery (urlQuery url)

/-- `CASClientBase.ticket_from_url` (`clients/core.py`):
`parse_qs(urlparse(url).query)['ticket'][0]` when the key is present, else
`''`.  `urlparse` itself raises `ValueError` on a bracket-imbalanced
authority, so the function is fallible. -/
def ticket_from_url (url : String) : Except PyErr String :=
  match urlsplit_query url with
  | .error e => .error e
  | .ok q => .ok ⟨ticketOfQuery q⟩

/-- Shortcut for elements in the CAS namespace. -/
def casEl (nm : String) (attrs : List (String × String)) (text : Option String)
    (children : List XmlElem) : XmlElem :=
  .mk (some XML_CAS_NS) nm attrs text children

/-- Shortcut for elements in the SAML 1.0 protocol namespace. -/
def samlpEl (nm : String) (attrs : List (String × String)) (text : Option String)
    (children : List XmlElem) : XmlElem :=
  .mk (some SAML_P_NS) nm attrs text children

/-- Shortcut for elements in the SAML 1.0 assertion namespace. -/
def samlaEl (nm : String) (attrs : List (String × String)) (text : Option String)
    (children : List XmlElem) : XmlElem :=
  .mk (some SAML_A_NS) nm attrs text children

/-- A `serviceResponse` with neither a success nor a failure child. -/
def emptyServiceResponseDoc : XmlElem :=
  casEl "serviceResponse" [] none []

/-- A proxy-format response (`cas:proxySuccess` carrying a `cas:proxyTicket`)
that contains no authentication markers at all. -/
def proxySuccessDoc : XmlElem :=
  casEl "serviceResponse" [] none
    [casEl "proxySuccess" [] none [casEl "proxyTicket" [] (some "PT-1-abc") []]]

/-- A CAS success response whose `user` element is present but textually
empty (`<cas:user/>`, so `user_el.text` is Python `None`). -/
def emptyUserDoc : XmlElem :=
  casEl "serviceResponse" [] none
    [casEl "authenticationSuccess" [] none [casEl "user" [] none []]]

/-- The `cas:attributes` element of the repository's test fixture: scalar
`cn` and repeated `memberOf`. -/
def casAttributesEl : XmlElem :=
  casEl "attributes" [] none
    [casEl "cn" [] (some "jdoe") [],
     casEl "memberOf" [] (some "person") [],
     casEl "memberOf" [] (some "user") []]

/-- The `cas:authenticationSuccess` element containing `casAttributesEl`. -/
def casSuccessEl : XmlElem :=
  casEl "authenticationSuccess" [] none
    [casEl "user" [] (some "jdoe") [], casAttributesEl]

/-- The CAS success response of the repository's test fixtures: scalar `cn`
and repeated `memberOf` attributes. -/
def casAttributesDoc : XmlElem :=
  casEl "serviceResponse" [] none [casSuccessEl]

/-- A SAML failure response in the conventional shape: `StatusMessage` is the
sibling of `StatusCode` under `Status`, not its child. -/
def samlSiblingMessageDoc : XmlElem :=
  samlpEl "Response" [] none
    [samlpEl "Status" [] none
      [samlpEl "StatusCode" [("Value", "samlp:Failure")] none [],
       samlpEl "StatusMessage" [] (some "boom") []]]

/-- A successful SAML validation response with a `NameIdentifier` and `cn` /
repeated `memberOf` attributes, as in the repository's fixture. -/
def samlSuccessDoc : XmlElem :=
  samlpEl "Response" [] none
    [samlpEl "Status" [] none [samlpEl "StatusCode" [("Value", "samlp:Success")] none []],
     samlaEl "Assertion" [] none
       [samlaEl "NameIdentifier" [] (some "jdoe") [],
        samlaEl "Attribute" [("AttributeName", "cn")] none
          [samlaEl "AttributeValue" [] (some "jdoe") []],
        samlaEl "Attribute" [("AttributeName", "memberOf")] none
          [samlaEl "AttributeValue" [] (some "person") []],
        samlaEl "Attribute" [("AttributeName", "memberOf")] none
          [samlaEl "AttributeValue" [] (some "user") []]]]

/-- The SAML 2.0 logout request of the repository's test fixture. -/
def logoutRequestDoc : XmlElem :=
  XmlElem.mk (some SAML2_P_NS) "LogoutRequest"
    [("ID", "123456789"), ("Version", "2.0"), ("IssueInstant", "2025-12-05T09:21:59Z")]
    none
    [XmlElem.mk (some SAML2_P_NS) "SessionIndex" [] (some "session_id") []]

/-- A logout request whose root has no `IssueInstant` attribute. -/
def logoutRequestNoInstantDoc : XmlElem :=
  XmlElem.mk (some SAML2_P_NS) "LogoutRequest" [("ID", "123456789")] none
    [XmlElem.mk (some SAML2_P_NS) "SessionIndex" [] (some "session_id") []]

/-- A logout request whose `IssueInstant` does not parse in the expected
format. -/
def logoutRequestBadInstantDoc : XmlElem :=
  XmlElem.mk (some SAML2_P_NS) "LogoutRequest"
    [("ID", "123456789"), ("IssueInstant", "05/12/2025 09:21:59")] none
    [XmlElem.mk (some SAML2_P_NS) "SessionIndex" [] (some "session_id") []]

/-- The first occurrence of each element of `l`, in order of first occurrence:
the claims' description of Python dict key insertion order. -/
def firstOcc {α : Type} [DecidableEq α] : List α → List α
  | [] => []
  | x :: xs => x :: (firstOcc xs).filter (fun y => decide (y ≠ x))

/-- Declarative description of what the attribute-collection loops compute:
the keys in order of first occurrence, each mapped to all of its values in
document order. -/
def groupSpec {κ ν : Type} [DecidableEq κ] (ps : List (κ × ν)) : List (κ × List ν) :=
  (firstOcc (ps.map Prod.fst)).map
    (fun k => (k, (ps.filter (fun p => decide (p.1 = k))).map Prod.snd))

/-- The `(AttributeName, AttributeValue text)` pairs of a SAML response, in
document order: one pair per `AttributeValue` child of each `saml:Attribute`
descendant. -/
def samlPairs (root : XmlElem) : List (Option String × Option String) :=
  (root.findallDesc SAML_A_NS "Attribute").flatMap (fun a =>
    (a.children.filter (fun ch => ch.localname == "AttributeValue")).map
      (fun ch => (a.get "AttributeName", ch.text)))

/-- C1: a CAS-XML document with neither `cas:authenticationSuccess` nor
`cas:authenticationFailure` makes `_parse_service_validate_content` (used by
both `service_validate`/`proxy_validate`, in both execution modes) raise the
distinct malformed-response `ValueError`, never a success result — regardless
of whatever else the document contains (e.g. proxy markers); independently, a
document with neither `cas:proxySuccess` nor `cas:proxyFailure` makes
`_parse_proxy_content` raise its own distinct `ValueError`, never a
success. -/
theorem c1_missing_markers_malformed (root : XmlElem) (pv : Bool) :
    (root.findChild XML_CAS_NS "authenticationSuccess" = none →
     root.findChild XML_CAS_NS "authenticationFailure" = none →
       parse_service_validate_content root pv =
         .error (.valueError "Incorrect XML content for serviceValidate") ∧
       ∀ d, parse_service_validate_content root pv ≠ .ok d) ∧
    (root.findChild XML_CAS_NS "proxySuccess" = none →
     root.findChild XML_CAS_NS "proxyFailure" = none →
       parse_proxy_content root =
         .error (.valueError "Incorrect XML content for proxy") ∧
       ∀ d, parse_proxy_content root ≠ .ok d) := by
  constructor
  · intro hs hf
    have h1 : parse_service_validate_content root pv =
        .error (.valueError "Incorrect XML content for serviceValidate") := by
      unfold parse_service_validate_content
      rw [hs, hf]
    refine ⟨h1, ?_⟩
    intro d h
    rw [h1] at h
    cases h
  · intro hps hpf
    have h2 : parse_proxy_content root =
        .error (.valueError "Incorrect XML content for proxy") := by
      unfold parse_proxy_content
      rw [hps, hpf]
    refine ⟨h2, ?_⟩
    intro d h
    rw [h2] at h
    cases h

/-- C1 witness: proxy-format XML (a `cas:proxySuccess` document with no
authentication markers) handed to the serviceValidate parser, and
authentication-format XML handed to the proxy parser, are each the malformed
case for that parser, even though the other operation's success marker is
present. -/
theorem c1_missing_markers_malformed_witness :
    parse_service_validate_content proxySuccessDoc false =
      .error (.valueError "Incorrect XML content for serviceValidate") ∧
    parse_proxy_content casAttributesDoc =
      .error (.valueError "Incorrect XML content for proxy") :=
  ⟨((c1_missing_markers_malformed proxySuccessDoc false).1 rfl rfl).1,
   ((c1_missing_markers_malformed casAttributesDoc false).2 rfl rfl).1⟩

/-- C9 counterexample: a success document whose `cas:user` child is present
but textually empty parses to username `None` (Python), not the empty string
the claim requires. -/
theorem c9_empty_user_counterexample :
    parse_service_validate_content emptyUserDoc false =
      .ok ⟨none, none, none, none⟩ ∧
    (none : Option String) ≠ some "" :=
  ⟨rfl, by simp⟩

/-- C9 (amended): under `authenticationSuccess` the username is the `user`
child's text when that child is present — Python `None`, not `""`, when the
element is textually empty — and the empty string only when the `user` child
is absent. -/
theorem c9_username_amended (root success_el : XmlElem) (pv : Bool)
    (hs : root.findChild XML_CAS_NS "authenticationSuccess" = some success_el) :
    ∃ d, parse_service_validate_content root pv = .ok d ∧
      (∀ user_el, success_el.findChild XML_CAS_NS "user" = some user_el →
         d.username = user_el.text) ∧
      (success_el.findChild XML_CAS_NS "user" = none → d.username = some "") := by
  unfold parse_service_validate_content
  rw [hs]
  refine ⟨_, rfl, ?_, ?_⟩
  · intro user_el hu
    simp only [hu]
  · intro hu
    simp only [hu]

/-- C9 witness: on the empty-`cas:user` document the amended claim yields the
`None` username. -/
theorem c9_username_amended_witness :
    ∃ d, parse_service_validate_content emptyUserDoc false = .ok d ∧
      d.username = none := by
  obtain ⟨d, hd, h1, _⟩ := c9_username_amended emptyUserDoc
    (casEl "authenticationSuccess" [] none [casEl "user" [] none []]) false rfl
  exact ⟨d, hd, h1 (casEl "user" [] none []) rfl⟩

/-- C2 counterexample: the raised failure does not carry the code (two
distinct unrecognized codes with one message produce identical exception
values, and for a recognized code two distinct server messages also produce
identical exception values), for both failure families. -/
theorem c2_code_not_carried_counterexample :
    casAuthenticationFailureArgs (some "CODE_A") (some "m") =
      casAuthenticationFailureArgs (some "CODE_B") (some "m") ∧
    "CODE_A" ≠ "CODE_B" ∧
    casAuthenticationFailureArgs (some "INVALID_TICKET") (some "msg one") =
      casAuthenticationFailureArgs (some "INVALID_TICKET") (some "msg two") ∧
    "msg one" ≠ "msg two" ∧
    casProxyFailureArgs (some "CODE_A") (some "m") =
      casProxyFailureArgs (some "CODE_B") (some "m") :=
  ⟨rfl, by decide, rfl, by decide, rfl⟩

/-- C2 (amended): a code found in the fixed table yields that table's fixed
sentence regardless of the server-supplied message; any other code yields the
server-supplied message verbatim; the proxy family behaves the same against
its own table; the exception value retains only the resulting message (plus
the client), not the originating code. -/
theorem c2_classifier_amended (code msg : String) :
    (∀ fixed, AUTHENTICATION_ERRORS.lookup code = some fixed →
       casAuthenticationFailureArgs (some code) (some msg) = [some fixed]) ∧
    (AUTHENTICATION_ERRORS.lookup code = none →
       casAuthenticationFailureArgs (some code) (some msg) = [some msg]) ∧
    (∀ fixed, PROXY_ERRORS.lookup code = some fixed →
       casProxyFailureArgs (some code) (some msg) = [some fixed]) ∧
    (PROXY_ERRORS.lookup code = none →
       casProxyFailureArgs (some code) (some msg) = [some msg]) := by
  refine ⟨?_, ?_, ?_, ?_⟩
  · intro fixed h
    simp [casAuthenticationFailureArgs, h]
  · intro h
    simp [casAuthenticationFailureArgs, h]
  · intro fixed h
    simp [casProxyFailureArgs, h]
  · intro h
    simp [casProxyFailureArgs, h]

/-- C2 witness: `INVALID_TICKET` yields its fixed sentence whatever the
server said, an unknown code passes the server message through, and the two
families use their own tables. -/
theorem c2_classifier_amended_witness :
    casAuthenticationFailureArgs (some "INVALID_TICKET") (some "Ticket ... not recognized") =
      [some "The ticket provided was not valid, or the ticket did not come from an initial login and renew was set on validation."] ∧
    casAuthenticationFailureArgs (some "SOME_NEW_CODE") (some "server text") =
      [some "server text"] ∧
    casProxyFailureArgs (some "UNAUTHORIZED_SERVICE") (some "ignored") =
      [some "Service is unauthorized to perform the proxy request."] ∧
    casProxyFailureArgs (some "UNAUTHORIZED_SERVICE_PROXY") (some "server text") =
      [some "server text"] :=
  ⟨(c2_classifier_amended "INVALID_TICKET" "Ticket ... not recognized").1 _ rfl,
   (c2_classifier_amended "SOME_NEW_CODE" "server text").2.1 rfl,
   (c2_classifier_amended "UNAUTHORIZED_SERVICE" "ignored").2.2.1 _ rfl,
   (c2_classifier_amended "UNAUTHORIZED_SERVICE_PROXY" "server text").2.2.2 rfl⟩

/-- C6: `parse_logout_request` returns the root `ID` attribute as the request
id and the `SessionIndex` text as the session id; a missing `SessionIndex`
raises (`AttributeError`); with the `IssueInstant` attribute present,
`issued_at` is the `%Y-%m-%dT%H:%M:%SZ`-parsed timestamp, falling back to the
raw attribute string (with no error) when that parse fails. -/
theorem c6_parse_logout_request (root : XmlElem) :
    (root.findDesc SAML2_P_NS "SessionIndex" = none →
       parse_logout_request root = .error .attributeError) ∧
    (∀ session_el instant,
       root.findDesc SAML2_P_NS "SessionIndex" = some session_el →
       root.get "IssueInstant" = some instant →
       parse_logout_request root =
         .ok ⟨root.get "ID",
              match strptimeZ instant with
              | some dt => .time dt
              | none => .raw instant,
              session_el.text⟩) := by
  constructor
  · intro h
    unfold parse_logout_request
    rw [h]
  · intro session_el instant hsess hinst
    unfold parse_logout_request
    rw [hsess, hinst]

/-- C6 witness: the fixture logout request parses to its `ID`, the exact
timestamp 2025-12-05T09:21:59, and the `SessionIndex` text; an unparseable
`IssueInstant` is preserved raw without an error. -/
theorem c6_parse_logout_request_witness :
    parse_logout_request logoutRequestDoc =
      .ok ⟨some "123456789", .time ⟨2025, 12, 5, 9, 21, 59⟩, some "session_id"⟩ ∧
    parse_logout_request logoutRequestBadInstantDoc =
      .ok ⟨some "123456789", .raw "05/12/2025 09:21:59", some "session_id"⟩ := by
  constructor
  · have h := (c6_parse_logout_request logoutRequestDoc).2
      (XmlElem.mk (some SAML2_P_NS) "SessionIndex" [] (some "session_id") [])
      "2025-12-05T09:21:59Z" rfl rfl
    rw [h]
    rfl
  · have h := (c6_parse_logout_request logoutRequestBadInstantDoc).2
      (XmlElem.mk (some SAML2_P_NS) "SessionIndex" [] (some "session_id") [])
      "05/12/2025 09:21:59" rfl rfl
    rw [h]
    rfl

/-- C10: the raw-string fallback only fires when the `IssueInstant` attribute
is present but unparseable; when the root has no `IssueInstant` attribute at
all, `parse_logout_request` raises an uncaught `TypeError` (from
`strptime(None, ...)`) and returns no `CASLogoutData`. -/
theorem c10_missing_instant_raises (root : XmlElem) :
    (root.get "IssueInstant" = none →
       (∀ d, parse_logout_request root ≠ .ok d) ∧
       (∀ session_el, root.findDesc SAML2_P_NS "SessionIndex" = some session_el →
          parse_logout_request root = .error .typeError)) ∧
    (∀ d s, parse_logout_request root = .ok d → d.issued_at = .raw s →
       root.get "IssueInstant" = some s ∧ strptimeZ s = none) := by
  constructor
  · intro hnone
    have hkey : ∀ session_el, root.findDesc SAML2_P_NS "SessionIndex" = some session_el →
        parse_logout_request root = .error .typeError := by
      intro session_el hsess
      unfold parse_logout_request
      rw [hsess, hnone]
    refine ⟨?_, hkey⟩
    intro d h
    unfold parse_logout_request at h
    rcases hsess : root.findDesc SAML2_P_NS "SessionIndex" with _ | session_el
    · rw [hsess] at h
      cases h
    · rw [hsess, hnone] at h
      cases h
  · intro d s hok hraw
    unfold parse_logout_request at hok
    rcases hsess : root.findDesc SAML2_P_NS "SessionIndex" with _ | session_el
    · rw [hsess] at hok
      cases hok
    · rw [hsess] at hok
      rcases hinst : root.get "IssueInstant" with _ | instant
      · rw [hinst] at hok
        cases hok
      · rw [hinst] at hok
        rcases hstr : strptimeZ instant with _ | dt
        · simp only [hstr] at hok
          cases hok
          cases hraw
          refine ⟨?_, ?_⟩ <;> simp_all
        · simp only [hstr] at hok
          cases hok
          cases hraw

/-- C10 witness: the concrete logout request without `IssueInstant` raises
`TypeError` and yields no data. -/
theorem c10_missing_instant_raises_witness :
    parse_logout_request logoutRequestNoInstantDoc = .error .typeError :=
  ((c10_missing_instant_raises logoutRequestNoInstantDoc).1 rfl).2
    (XmlElem.mk (some SAML2_P_NS) "SessionIndex" [] (some "session_id") []) rfl

/-- C3 counterexample: the async reader strips the first line before the
comparison, so a response whose first line is `" yes"` (not exactly `"yes"`)
succeeds in async mode, while the blocking reader fails on the equivalent
line sequence. -/
theorem c3_first_line_counterexample :
    afetch_validate_aiohttp " yes\njdoe" = .ok "jdoe" ∧
    fetch_validate_requests [" yes", "jdoe"] =
      .error (.casAuthenticationFailure (some "VALIDATE_FAILED") (some "Ticket validation failed.")) ∧
    " yes" ≠ "yes" :=
  ⟨rfl, rfl, by decide⟩

/-- C3 (amended): the blocking reader compares the first line (as yielded by
`iter_lines`, without terminators) to `"yes"` exactly and on success returns
the trimmed second line (empty when absent); the async reader strips
surrounding whitespace from the first line before comparing to `"yes"` — a
whitespace-padded first line also succeeds there — and returns the stripped
second line; any other first line fails with `VALIDATE_FAILED` in both. -/
theorem c3_validate_readers_amended (first : String) (rest : List String) (body : String) :
    (fetch_validate_requests (first :: rest) =
       if first = "yes" then .ok (pyStrip (rest.headD ""))
       else .error (.casAuthenticationFailure (some "VALIDATE_FAILED")
                      (some "Ticket validation failed."))) ∧
    (pyStrip (readline body).1 = "yes" →
       afetch_validate_aiohttp body = .ok (pyStrip (readline (readline body).2).1)) ∧
    (pyStrip (readline body).1 ≠ "yes" →
       afetch_validate_aiohttp body =
         .error (.casAuthenticationFailure (some "VALIDATE_FAILED")
                   (some "Ticket validation failed."))) := by
  refine ⟨?_, ?_, ?_⟩
  · by_cases h : first = "yes"
    · subst h
      cases rest with
      | nil =>
        simp only [fetch_validate_requests, if_pos rfl, List.headD_nil]
        rfl
      | cons second tail => simp [fetch_validate_requests]
    · simp [fetch_validate_requests, h]
  · intro h
    simp only [afetch_validate_aiohttp]
    rw [if_pos h]
  · intro h
    simp only [afetch_validate_aiohttp]
    rw [if_neg h]

/-- C3 witness: `"yes"/"jdoe"` succeeds with username `"jdoe"` in blocking
mode, a missing second line degrades to the empty username, and `"no"` fails
with `VALIDATE_FAILED` in async mode. -/
theorem c3_validate_readers_amended_witness :
    fetch_validate_requests ["yes", "jdoe"] = .ok "jdoe" ∧
    fetch_validate_requests ["yes"] = .ok "" ∧
    afetch_validate_aiohttp "no\n" =
      .error (.casAuthenticationFailure (some "VALIDATE_FAILED")
                (some "Ticket validation failed.")) := by
  refine ⟨?_, ?_, ?_⟩
  · have h := (c3_validate_readers_amended "yes" ["jdoe"] "").1
    simpa using h
  · have h := (c3_validate_readers_amended "yes" [] "").1
    simpa using h
  · have h := (c3_validate_readers_amended "yes" [] "no\n").2.2 (by decide)
    simpa using h

theorem lookup_map_override {ν : Type} (data extra : List (String × ν)) (k : String) :
    (data.map (fun p => (p.1, (extra.lookup p.1).getD p.2))).lookup k =
      (data.lookup k).map (fun v => (extra.lookup k).getD v) := by
  induction data with
  | nil => rfl
  | cons p ps ih =>
    obtain ⟨a, b⟩ := p
    by_cases h : k = a
    · subst h
      simp [List.lookup_cons]
    · simp [List.lookup_cons, beq_false_of_ne h, ih]

theorem lookup_append {ν : Type} (l₁ l₂ : List (String × ν)) (k : String) :
    (l₁ ++ l₂).lookup k =
      match l₁.lookup k with
      | some v => some v
      | none => l₂.lookup k := by
  induction l₁ with
  | nil => simp
  | cons p ps ih =>
    obtain ⟨a, b⟩ := p
    by_cases h : k = a
    · subst h
      simp [List.lookup_cons]
    · simp [List.lookup_cons, beq_false_of_ne h, ih]

theorem lookup_eq_none_iff_keys {ν : Type} (l : List (String × ν)) (k : String) :
    l.lookup k = none ↔ k ∉ l.map Prod.fst := by
  induction l with
  | nil => simp
  | cons p ps ih =>
    obtain ⟨a, b⟩ := p
    by_cases h : k = a
    · subst h
      simp [List.lookup_cons]
    · simp [List.lookup_cons, beq_false_of_ne h, ih, h]

theorem lookup_filter_keep {ν : Type} (l : List (String × ν)) (p : String × ν → Bool)
    (k : String) (hkeep : ∀ x ∈ l, x.1 = k → p x = true) :
    (l.filter p).lookup k = l.lookup k := by
  induction l with
  | nil => rfl
  | cons x xs ih =>
    have ih' := ih (fun y hy hyk => hkeep y (List.mem_cons_of_mem _ hy) hyk)
    obtain ⟨a, b⟩ := x
    by_cases hx : p (a, b) = true
    · rw [List.filter_cons_of_pos hx]
      by_cases hk : k = a
      · subst hk
        simp [List.lookup_cons]
      · simp [List.lookup_cons, beq_false_of_ne hk, ih']
    · rw [List.filter_cons_of_neg hx]
      have hk : k ≠ a := fun hkx => hx (hkeep (a, b) (List.mem_cons_self _ _) hkx.symm)
      simp [List.lookup_cons, beq_false_of_ne hk, ih']

theorem lookup_filter_none {ν : Type} (l : List (String × ν)) (p : String × ν → Bool)
    (k : String) (h : l.lookup k = none) : (l.filter p).lookup k = none := by
  induction l with
  | nil => rfl
  | cons x xs ih =>
    obtain ⟨a, b⟩ := x
    by_cases hk : k = a
    · simp [List.lookup_cons, hk] at h
    · simp only [List.lookup_cons] at h
      rw [show (k == a) = false by simp [hk]] at h
      by_cases hx : p (a, b) = true
      · rw [List.filter_cons_of_pos hx]
        simp [List.lookup_cons, beq_false_of_ne hk, ih h]
      · rw [List.filter_cons_of_neg hx]
        exact ih h

/-- C7 counterexample: on a 200 response carrying a `Location` header — no
redirect occurred — the async variant copies the header into `redirect_url`
while the blocking variant leaves it empty, so the claimed behaviour does not
hold in both execution modes. -/
theorem c7_redirect_url_counterexample :
    login_result_aiohttp ⟨200, [("Location", "http://x/")]⟩ =
      ⟨true, 200, "http://x/"⟩ ∧
    login_result_requests ⟨200, [("Location", "http://x/")]⟩ = ⟨true, 200, ""⟩ ∧
    ("http://x/" : String) ≠ "" ∧
    requests_is_redirect ⟨200, [("Location", "http://x/")]⟩ = false :=
  ⟨by decide, by decide, by decide, by decide⟩

/-- C7 (amended): both variants post `service`, `username`, `password`,
`remember`, `warn` plus the caller's extra fields, the caller's value winning
on key collision and new keys appended after the defaults; `success` is true
iff the status is 200, 201 or 302.  `redirect_url`: the blocking variant uses
the `Location` header exactly when the response is a redirect
(status 301/302/303/307/308 with a `Location` header) and `""` otherwise,
while the async variant copies the `Location` header whenever it is present,
whatever the status. -/
theorem c7_login_amended (su un pw : String) (rem warn : Bool)
    (extra : List (String × PyVal)) (r : HttpResponse) :
    (∀ k v, extra.lookup k = some v →
       (login_data su un pw rem warn (some extra)).lookup k = some v) ∧
    (∀ k, extra.lookup k = none →
       (login_data su un pw rem warn (some extra)).lookup k =
         (login_data su un pw rem warn none).lookup k) ∧
    ((login_data su un pw rem warn (some extra)).map Prod.fst =
       ["service", "username", "password", "remember", "warn"] ++
         (extra.map Prod.fst).filter
           (fun k => !(["service", "username", "password", "remember", "warn"].contains k))) ∧
    ((login_result_requests r).success = [200, 201, 302].contains r.status) ∧
    ((login_result_aiohttp r).success = [200, 201, 302].contains r.status) ∧
    ((login_result_requests r).http_status = r.status) ∧
    ((login_result_aiohttp r).http_status = r.status) ∧
    (requests_is_redirect r = true →
       (login_result_requests r).redirect_url = (headerLookup r.headers "location").getD "") ∧
    (requests_is_redirect r = false → (login_result_requests r).redirect_url = "") ∧
    ((login_result_aiohttp r).redirect_url = (headerLookup r.headers "location").getD "") := by
  refine ⟨?_, ?_, ?_, rfl, rfl, rfl, rfl, ?_, ?_, rfl⟩
  · intro k v h
    simp only [login_data, dictMerge]
    rw [lookup_append, lookup_map_override]
    rcases hd : List.lookup k
        [("service", PyVal.str su), ("username", PyVal.str un), ("password", PyVal.str pw),
         ("remember", PyVal.bool rem), ("warn", PyVal.bool warn)] with _ | v0
    · have hnotmem := (lookup_eq_none_iff_keys _ k).mp hd
      simp only [List.map_cons, List.map_nil] at hnotmem
      rw [lookup_filter_keep]
      · exact h
      · intro x hx hxk
        subst hxk
        simp_all
    · simp [h]
  · intro k h
    simp only [login_data, dictMerge]
    rw [lookup_append, lookup_map_override, h]
    rcases hd : List.lookup k
        [("service", PyVal.str su), ("username", PyVal.str un), ("password", PyVal.str pw),
         ("remember", PyVal.bool rem), ("warn", PyVal.bool warn)] with _ | v0
    · exact lookup_filter_none extra _ k h
    · simp
  · simp only [login_data, dictMerge, List.map_append, List.map_map]
    congr 1
    have hcomp : (fun p : String × PyVal =>
        !((List.map Prod.fst
            [("service", PyVal.str su), ("username", PyVal.str un), ("password", PyVal.str pw),
             ("remember", PyVal.bool rem), ("warn", PyVal.bool warn)]).contains p.1)) =
        ((fun k => !(["service", "username", "password", "remember", "warn"].contains k)) ∘
          Prod.fst) := rfl
    rw [hcomp, ← List.filter_map]
  · intro h
    simp only [login_result_requests]
    rw [if_pos h]
  · intro h
    simp only [login_result_requests]
    rw [if_neg (by simp [h])]

/-- C7 witness: with extra fields `lt` (new) and `service` (colliding), the
posted form keeps the five defaults' key order, takes the caller's `service`,
and appends `lt`; a 302 response with a `Location` header yields success and
that header as `redirect_url` in blocking mode. -/
theorem c7_login_amended_witness :
    (login_data "https://s/" "u" "p" true false
        (some [("service", .str "other"), ("lt", .str "LT-1")])).lookup "service" =
      some (.str "other") ∧
    (login_data "https://s/" "u" "p" true false
        (some [("service", .str "other"), ("lt", .str "LT-1")])).lookup "lt" =
      some (.str "LT-1") ∧
    (login_data "https://s/" "u" "p" true false
        (some [("service", .str "other"), ("lt", .str "LT-1")])).map Prod.fst =
      ["service", "username", "password", "remember", "warn", "lt"] ∧
    login_result_requests ⟨302, [("Location", "https://cb/?ticket=T")]⟩ =
      ⟨true, 302, "https://cb/?ticket=T"⟩ := by
  have h := c7_login_amended "https://s/" "u" "p" true false
    [("service", .str "other"), ("lt", .str "LT-1")] ⟨302, [("Location", "https://cb/?ticket=T")]⟩
  refine ⟨h.1 "service" (.str "other") rfl, h.1 "lt" (.str "LT-1") rfl, ?_, ?_⟩
  · rw [h.2.2.1]
    decide
  · have hred := h.2.2.2.2.2.2.2.1 (by decide)
    have hsucc := h.2.2.2.1
    have hstat := h.2.2.2.2.2.1
    rcases hres : login_result_requests ⟨302, [("Location", "https://cb/?ticket=T")]⟩
      with ⟨s, st, ru⟩
    rw [hres] at hred hsucc hstat
    simp only at hred hsucc hstat
    rw [hsucc, hstat, hred]
    decide

theorem mem_firstOcc {α : Type} [DecidableEq α] (x : α) (l : List α) :
    x ∈ firstOcc l ↔ x ∈ l := by
  induction l with
  | nil => simp [firstOcc]
  | cons y ys ih =>
    by_cases hxy : x = y
    · subst hxy
      simp [firstOcc]
    · simp [firstOcc, List.mem_filter, hxy, ih]

theorem nodup_firstOcc {α : Type} [DecidableEq α] (l : List α) : (firstOcc l).Nodup := by
  induction l with
  | nil => simp [firstOcc]
  | cons y ys ih =>
    simp only [firstOcc, List.nodup_cons]
    refine ⟨?_, ih.filter _⟩
    simp [List.mem_filter]

theorem firstOcc_cons {α : Type} [DecidableEq α] (y : α) (l : List α) :
    firstOcc (y :: l) = y :: (firstOcc l).filter (fun z => decide (z ≠ y)) :=
  rfl

theorem firstOcc_append_not_mem {α : Type} [DecidableEq α] (l : List α) (x : α) (h : x ∉ l) :
    firstOcc (l ++ [x]) = firstOcc l ++ [x] := by
  induction l with
  | nil => rfl
  | cons y ys ih =>
    have hxy : x ≠ y := by
      rintro rfl
      exact h (List.mem_cons_self _ _)
    have hys : x ∉ ys := fun hm => h (List.mem_cons_of_mem _ hm)
    rw [List.cons_append, firstOcc_cons, firstOcc_cons, ih hys, List.filter_append]
    simp [hxy]

theorem firstOcc_append_mem {α : Type} [DecidableEq α] (l : List α) (x : α) (h : x ∈ l) :
    firstOcc (l ++ [x]) = firstOcc l := by
  induction l with
  | nil => simp at h
  | cons y ys ih =>
    by_cases hxy : x = y
    · subst hxy
      by_cases hys : x ∈ ys
      · rw [List.cons_append, firstOcc_cons, firstOcc_cons, ih hys]
      · rw [List.cons_append, firstOcc_cons, firstOcc_cons,
          firstOcc_append_not_mem ys x hys, List.filter_append]
        simp
    · have hys : x ∈ ys := (List.mem_cons.mp h).resolve_left hxy
      rw [List.cons_append, firstOcc_cons, firstOcc_cons, ih hys]

theorem firstOcc_map_injective {α β : Type} [DecidableEq α] [DecidableEq β] (f : α → β)
    (hf : Function.Injective f) (l : List α) :
    firstOcc (l.map f) = (firstOcc l).map f := by
  induction l with
  | nil => rfl
  | cons y ys ih =>
    simp only [List.map_cons, firstOcc, ih, List.filter_map]
    congr 1
    apply congrArg (List.map f)
    apply List.filter_congr
    intro a _
    simp [Function.comp, hf.eq_iff]

theorem map_fst_groupSpec {κ ν : Type} [DecidableEq κ] (ps : List (κ × ν)) :
    (groupSpec ps).map Prod.fst = firstOcc (ps.map Prod.fst) := by
  unfold groupSpec
  rw [List.map_map]
  have hid : (Prod.fst ∘ fun k : κ =>
      (k, (ps.filter (fun p => decide (p.1 = k))).map Prod.snd)) = id := rfl
  rw [hid, List.map_id]

theorem filter_keys_eq_nil {κ ν : Type} [DecidableEq κ] (l : List (κ × ν)) (k : κ)
    (h : k ∉ l.map Prod.fst) : l.filter (fun p => decide (p.1 = k)) = [] := by
  induction l with
  | nil => rfl
  | cons p ps ih =>
    simp only [List.map_cons, List.mem_cons] at h
    push_neg at h
    rw [List.filter_cons_of_neg, ih h.2]
    simp only [decide_eq_true_eq]
    exact fun hh => h.1 hh.symm

theorem multimapAdd_not_mem {κ ν : Type} [DecidableEq κ] (m : List (κ × List ν)) (k : κ)
    (v : ν) (h : k ∉ m.map Prod.fst) : multimapAdd m k v = m ++ [(k, [v])] := by
  induction m with
  | nil => rfl
  | cons p rest ih =>
    obtain ⟨k2, vs⟩ := p
    simp only [List.map_cons, List.mem_cons] at h
    push_neg at h
    simp only [multimapAdd, if_neg h.1, ih h.2, List.cons_append]

theorem multimapAdd_mem_nodup {κ ν : Type} [DecidableEq κ] (m : List (κ × List ν)) (k : κ)
    (v : ν) (hn : (m.map Prod.fst).Nodup) (h : k ∈ m.map Prod.fst) :
    multimapAdd m k v = m.map (fun p => if p.1 = k then (p.1, p.2 ++ [v]) else p) := by
  induction m with
  | nil => simp at h
  | cons p rest ih =>
    obtain ⟨k2, vs⟩ := p
    simp only [List.map_cons, List.nodup_cons] at hn
    simp only [List.map_cons, List.mem_cons] at h
    by_cases hk : k = k2
    · subst hk
      simp only [multimapAdd, List.map_cons, if_true]
      congr 1
      have hrest : ∀ p ∈ rest, (if p.1 = k then (p.1, p.2 ++ [v]) else p) = id p := by
        intro p hp
        rw [if_neg, id]
        intro hpk
        exact hn.1 (hpk ▸ List.mem_map_of_mem Prod.fst hp)
      rw [List.map_congr_left hrest, List.map_id]
    · have h2 : k ∈ rest.map Prod.fst := h.resolve_left hk
      simp only [multimapAdd, if_neg hk, List.map_cons, ih hn.2 h2]
      rw [if_neg (fun hh => hk hh.symm)]

theorem buildMultimap_eq_groupSpec {κ ν : Type} [DecidableEq κ] (ps : List (κ × ν)) :
    buildMultimap ps = groupSpec ps := by
  induction ps using List.reverseRecOn with
  | nil => rfl
  | append_singleton ps q ih =>
    obtain ⟨k, v⟩ := q
    have hfold : buildMultimap (ps ++ [(k, v)]) = multimapAdd (buildMultimap ps) k v := by
      simp [buildMultimap, List.foldl_append]
    rw [hfold, ih]
    have hkeys : (ps ++ [(k, v)]).map Prod.fst = ps.map Prod.fst ++ [k] := by simp
    by_cases hk : k ∈ ps.map Prod.fst
    · rw [multimapAdd_mem_nodup _ _ _
        (by rw [map_fst_groupSpec]; exact nodup_firstOcc _)
        (by rw [map_fst_groupSpec]; exact (mem_firstOcc _ _).mpr hk)]
      unfold groupSpec
      rw [List.map_map, hkeys, firstOcc_append_mem _ _ hk]
      apply List.map_congr_left
      intro k0 hk0
      by_cases hk0k : k0 = k
      · subst hk0k
        simp [Function.comp, List.filter_append]
      · simp [Function.comp, List.filter_append, hk0k, Ne.symm hk0k]
    · rw [multimapAdd_not_mem _ _ _
        (by rw [map_fst_groupSpec]; exact fun hm => hk ((mem_firstOcc _ _).mp hm))]
      unfold groupSpec
      rw [hkeys, firstOcc_append_not_mem _ _ hk, List.map_append]
      congr 1
      · apply List.map_congr_left
        intro k0 hk0
        have hk0k : k0 ≠ k := fun hh => hk (hh ▸ (mem_firstOcc _ _).mp hk0)
        simp [List.filter_append, hk0k, Ne.symm hk0k]
      · simp [List.filter_append, filter_keys_eq_nil ps k hk]

/-- The attribute-collection loop of `_parse_service_validate_content`,
expressed declaratively: keys are the children's local names in order of
first occurrence; each key maps to the collapsed list of its children's
texts in document order. -/
theorem casAttrsLoop_eq_spec (children : List XmlElem) :
    collapseAttrs (children.foldl (fun m c => multimapAdd m (some c.localname) c.text) []) =
      (firstOcc (children.map XmlElem.localname)).map
        (fun nm => (some nm,
          collapseVal ((children.filter (fun c => decide (c.localname = nm))).map
            XmlElem.text))) := by
  have h1 : children.foldl (fun m c => multimapAdd m (some c.localname) c.text) [] =
      buildMultimap (children.map (fun c => (some c.localname, c.text))) := by
    rw [buildMultimap, List.foldl_map]
  rw [h1, buildMultimap_eq_groupSpec]
  unfold groupSpec collapseAttrs
  rw [List.map_map]
  have hkeys : (children.map (fun c => (some c.localname, c.text))).map Prod.fst =
      (children.map XmlElem.localname).map some := by
    simp [List.map_map, Function.comp]
  rw [hkeys, firstOcc_map_injective some (fun a b h => Option.some.inj h), List.map_map]
  apply List.map_congr_left
  intro nm _
  simp only [Function.comp]
  congr 2
  rw [List.filter_map, List.map_map]
  have hpred : ∀ c ∈ children,
      ((fun p : Option String × Option String => decide (p.1 = some nm)) ∘
        (fun c => (some c.localname, c.text))) c =
      (fun c : XmlElem => decide (c.localname = nm)) c := by
    intro c _
    simp [Function.comp]
  rw [List.filter_congr hpred]
  rfl

/-- C4: for every `cas:attributes` element in a successful CAS-XML validation
response, the parsed attributes mapping is keyed by each child's local tag
name with key order following first occurrence in document order; a name
occurring exactly once maps to its scalar text value, a name occurring more
than once maps to the list of its texts in document order. -/
theorem c4_attributes_mapping (root success_el attrs_el : XmlElem) (pv : Bool)
    (hs : root.findChild XML_CAS_NS "authenticationSuccess" = some success_el)
    (ha : success_el.findChild XML_CAS_NS "attributes" = some attrs_el) :
    ∃ d, parse_service_validate_content root pv = .ok d ∧
      d.attrs = some ((firstOcc (attrs_el.children.map XmlElem.localname)).map
        (fun nm => (some nm,
          collapseVal ((attrs_el.children.filter
            (fun c => decide (c.localname = nm))).map XmlElem.text)))) := by
  unfold parse_service_validate_content
  simp only [hs, ha]
  refine ⟨_, rfl, ?_⟩
  show some (collapseAttrs (attrs_el.children.foldl
      (fun m child => multimapAdd m (some child.localname) child.text) [])) = _
  rw [casAttrsLoop_eq_spec]

/-- C4 witness: the fixture document (`cn` once, `memberOf` twice) yields
`{cn: "jdoe", memberOf: ["person", "user"]}` with that key order. -/
theorem c4_attributes_mapping_witness :
    ∃ d, parse_service_validate_content casAttributesDoc false = .ok d ∧
      d.attrs = some [(some "cn", .scalar (some "jdoe")),
                      (some "memberOf", .multi [some "person", some "user"])] := by
  obtain ⟨d, hd, hattrs⟩ :=
    c4_attributes_mapping casAttributesDoc casSuccessEl casAttributesEl false rfl rfl
  refine ⟨d, hd, ?_⟩
  rw [hattrs]
  rfl

theorem foldl_filter_general {α β : Type} (p : α → Bool) (f : β → α → β) (l : List α)
    (init : β) :
    l.foldl (fun acc x => if p x then f acc x else acc) init = (l.filter p).foldl f init := by
  induction l generalizing init with
  | nil => rfl
  | cons x xs ih =>
    by_cases hx : p x
    · rw [List.filter_cons_of_pos hx]
      simp only [List.foldl_cons, if_pos hx]
      exact ih _
    · rw [List.filter_cons_of_neg hx]
      simp only [List.foldl_cons, if_neg hx]
      exact ih _

theorem foldl_flatMap_general {α β γ : Type} (g : α → List β) (f : γ → β → γ) (l : List α)
    (init : γ) :
    (l.flatMap g).foldl f init = l.foldl (fun acc a => (g a).foldl f acc) init := by
  induction l generalizing init with
  | nil => rfl
  | cons x xs ih =>
    rw [List.flatMap_cons, List.foldl_append, List.foldl_cons]
    exact ih _

/-- The SAML double collection loop builds exactly the multimap of the
`(AttributeName, AttributeValue text)` pairs in document order. -/
theorem samlCollectAttrs_eq_buildMultimap (attrs_all : List XmlElem) :
    samlCollectAttrs attrs_all =
      buildMultimap (attrs_all.flatMap (fun a =>
        (a.children.filter (fun ch => ch.localname == "AttributeValue")).map
          (fun ch => (a.get "AttributeName", ch.text)))) := by
  unfold samlCollectAttrs buildMultimap
  rw [foldl_flatMap_general]
  congr 1
  funext m a
  rw [List.foldl_map, ← foldl_filter_general]

/-- C5 counterexample: a SAML failure whose `StatusMessage` is the sibling of
`StatusCode` (the conventional SAML shape) is reported with the empty
message, not the `StatusMessage` text — the parser only looks for
`StatusMessage` as a child of `StatusCode`. -/
theorem c5_sibling_message_counterexample :
    parse_saml_validate_content samlSiblingMessageDoc =
      .error (.casAuthenticationFailure (some "Failure") (some "")) ∧
    samlSiblingMessageDoc.findDesc SAML_P_NS "StatusMessage" =
      some (samlpEl "StatusMessage" [] (some "boom") []) ∧
    (some "" : Option String) ≠ some "boom" :=
  ⟨rfl, rfl, by simp⟩

/-- C5 (amended): the parser strips the first six characters of the first
`StatusCode`'s `Value`; bare status `"Success"` yields a success whose
username is the first `NameIdentifier` text (empty-string default when
absent) and whose attributes are the `AttributeName`-keyed scalar/list
collapse of all `AttributeValue` texts; any other bare status raises an
authentication failure whose code is the bare status and whose message is the
text of a `StatusMessage` **child of the `StatusCode` element** (empty when
no such child, even if a sibling `StatusMessage` exists); no `StatusCode`
anywhere is a malformed-document error. -/
theorem c5_saml_validate_amended (root : XmlElem) :
    (root.findDesc SAML_P_NS "StatusCode" = none →
       parse_saml_validate_content root =
         .error (.valueError "Incorrect XML content for samlValidate")) ∧
    (∀ status_el v, root.findDesc SAML_P_NS "StatusCode" = some status_el →
       status_el.get "Value" = some v →
       (strDrop v 6 = "Success" →
          parse_saml_validate_content root =
            .ok ⟨(match root.findDesc SAML_A_NS "NameIdentifier" with
                  | some user_el => user_el.text
                  | none => some ""),
                 none,
                 some (collapseAttrs (groupSpec (samlPairs root))),
                 none⟩) ∧
       (strDrop v 6 ≠ "Success" →
          parse_saml_validate_content root =
            .error (.casAuthenticationFailure (some (strDrop v 6))
              (match status_el.findChild SAML_P_NS "StatusMessage" with
               | some message_el => message_el.text
               | none => some "")))) := by
  constructor
  · intro h
    unfold parse_saml_validate_content
    rw [h]
  · intro status_el v hst hv
    constructor
    · intro hsucc
      unfold parse_saml_validate_content
      simp only [hst, hv]
      rw [if_pos hsucc]
      rw [samlCollectAttrs_eq_buildMultimap, buildMultimap_eq_groupSpec]
      rfl
    · intro hfail
      unfold parse_saml_validate_content
      simp only [hst, hv]
      rw [if_neg hfail]

/-- C5 witness: the fixture-shaped success response validates to username
`"jdoe"` with `{cn: "jdoe", memberOf: ["person", "user"]}`. -/
theorem c5_saml_validate_amended_witness :
    parse_saml_validate_content samlSuccessDoc =
      .ok ⟨some "jdoe", none,
           some [(some "cn", .scalar (some "jdoe")),
                 (some "memberOf", .multi [some "person", some "user"])],
           none⟩ := by
  have h := ((c5_saml_validate_amended samlSuccessDoc).2
    (samlpEl "StatusCode" [("Value", "samlp:Success")] none [])
    "samlp:Success" rfl rfl).1 rfl
  rw [h]
  rfl

theorem utf8Decode_ascii (b : Nat) (hb : b < 0x80) (t : List Nat) :
    utf8DecodeReplace (b :: t) = Char.ofNat b :: utf8DecodeReplace t := by
  match t with
  | [] => simp [utf8DecodeReplace, hb]
  | [x] => simp [utf8DecodeReplace, hb]
  | [x, y] => simp [utf8DecodeReplace, hb]
  | x :: y :: z :: t2 => simp [utf8DecodeReplace, hb]

theorem utf8Decode_two (b1 b2 : Nat) (h1 : utf8Lead2 b1) (h2 : 0x80 ≤ b2 ∧ b2 ≤ 0xBF)
    (t : List Nat) :
    utf8DecodeReplace (b1 :: b2 :: t) =
      Char.ofNat ((b1 - 0xC0) * 64 + (b2 - 0x80)) :: utf8DecodeReplace t := by
  have hnot : ¬ b1 < 0x80 := by
    unfold utf8Lead2 at h1
    omega
  match t with
  | [] => simp [utf8DecodeReplace, hnot, h1, h2.1, h2.2]
  | [x] => simp [utf8DecodeReplace, hnot, h1, h2.1, h2.2]
  | x :: y :: t2 => simp [utf8DecodeReplace, hnot, h1, h2.1, h2.2]

theorem utf8Decode_three (b1 b2 b3 : Nat) (h1 : utf8Lead3 b1) (h2 : utf8Cont3 b1 b2 b3)
    (t : List Nat) :
    utf8DecodeReplace (b1 :: b2 :: b3 :: t) =
      Char.ofNat ((b1 - 0xE0) * 4096 + (b2 - 0x80) * 64 + (b3 - 0x80)) ::
        utf8DecodeReplace t := by
  have hnot : ¬ b1 < 0x80 := by
    unfold utf8Lead3 at h1
    omega
  have hnot2 : ¬ (utf8Lead2 b1 ∧ 0x80 ≤ b2 ∧ b2 ≤ 0xBF) := by
    unfold utf8Lead2 utf8Lead3 at *
    omega
  match t with
  | [] => simp [utf8DecodeReplace, hnot, hnot2, h1, h2]
  | x :: t2 => simp [utf8DecodeReplace, hnot, hnot2, h1, h2]

theorem utf8Decode_four (b1 b2 b3 b4 : Nat) (h1 : utf8Lead4 b1) (h2 : utf8Cont4 b1 b2 b3 b4)
    (t : List Nat) :
    utf8DecodeReplace (b1 :: b2 :: b3 :: b4 :: t) =
      Char.ofNat ((b1 - 0xF0) * 262144 + (b2 - 0x80) * 4096 + (b3 - 0x80) * 64 +
        (b4 - 0x80)) :: utf8DecodeReplace t := by
  have hnot : ¬ b1 < 0x80 := by
    unfold utf8Lead4 at h1
    omega
  have hnot2 : ¬ (utf8Lead2 b1 ∧ 0x80 ≤ b2 ∧ b2 ≤ 0xBF) := by
    unfold utf8Lead2 utf8Lead4 at *
    omega
  have hnot3 : ¬ (utf8Lead3 b1 ∧ utf8Cont3 b1 b2 b3) := by
    unfold utf8Lead3 utf8Lead4 at *
    omega
  simp [utf8DecodeReplace, hnot, hnot2, hnot3, h1, h2]

/-- Decoding a character's UTF-8 encoding at the head of a byte stream
recovers exactly that character. -/
theorem utf8_decode_encode (c : Char) (rest : List Nat) :
    utf8DecodeReplace (utf8EncodeChar c ++ rest) = c :: utf8DecodeReplace rest := by
  have hv : c.toNat < 0xd800 ∨ (0xdfff < c.toNat ∧ c.toNat < 0x110000) := c.valid
  unfold utf8EncodeChar
  by_cases h1 : c.toNat < 0x80
  · rw [if_pos h1, List.singleton_append, utf8Decode_ascii _ h1, Char.ofNat_toNat]
  · rw [if_neg h1]
    by_cases h2 : c.toNat < 0x800
    · rw [if_pos h2, List.cons_append, List.cons_append, List.nil_append]
      rw [utf8Decode_two _ _ (by unfold utf8Lead2; omega) (by omega)]
      rw [show (0xC0 + c.toNat / 64 - 0xC0) * 64 + (0x80 + c.toNat % 64 - 0x80) = c.toNat by
        omega]
      rw [Char.ofNat_toNat]
    · rw [if_neg h2]
      by_cases h3 : c.toNat < 0x10000
      · rw [if_pos h3, List.cons_append, List.cons_append, List.cons_append, List.nil_append]
        rw [utf8Decode_three _ _ _ (by unfold utf8Lead3; omega)
          (by unfold utf8Cont3; omega)]
        rw [show (0xE0 + c.toNat / 4096 - 0xE0) * 4096 +
            (0x80 + c.toNat / 64 % 64 - 0x80) * 64 + (0x80 + c.toNat % 64 - 0x80) =
            c.toNat by omega]
        rw [Char.ofNat_toNat]
      · rw [if_neg h3, List.cons_append, List.cons_append, List.cons_append,
          List.cons_append, List.nil_append]
        rw [utf8Decode_four _ _ _ _ (by unfold utf8Lead4; omega)
          (by unfold utf8Cont4; omega)]
        rw [show (0xF0 + c.toNat / 262144 - 0xF0) * 262144 +
            (0x80 + c.toNat / 4096 % 64 - 0x80) * 4096 +
            (0x80 + c.toNat / 64 % 64 - 0x80) * 64 + (0x80 + c.toNat % 64 - 0x80) =
            c.toNat by omega]
        rw [Char.ofNat_toNat]

/-- Decoding the concatenated UTF-8 encodings of a character list recovers
the list. -/
theorem utf8_decode_encode_list (s : List Char) :
    utf8DecodeReplace (s.flatMap utf8EncodeChar) = s := by
  induction s with
  | nil => simp [utf8DecodeReplace]
  | cons c cs ih => rw [List.flatMap_cons, utf8_decode_encode, ih]

theorem isHexChar_hexDigitU : ∀ d, d < 16 → isHexChar (hexDigitU d) = true := by decide

theorem hexCharVal_hexDigitU : ∀ d, d < 16 → hexCharVal (hexDigitU d) = d := by decide

theorem hexDigitU_ne : ∀ d, d < 16 → hexDigitU d ≠ '+' ∧ hexDigitU d ≠ '&' ∧
    hexDigitU d ≠ '=' ∧ hexDigitU d ≠ '#' ∧ hexDigitU d ≠ '?' := by decide

theorem toSyms_cons3 (c c1 c2 : Char) (t : List Char) :
    toSyms (c :: c1 :: c2 :: t) =
      if (c = '%' && isHexChar c1 && isHexChar c2) then
        Sum.inl (16 * hexCharVal c1 + hexCharVal c2) :: toSyms t
      else symOf c :: toSyms (c1 :: c2 :: t) :=
  rfl

theorem toSyms_not_escape (c : Char) (t : List Char) (hc : c ≠ '%') :
    toSyms (c :: t) = symOf c :: toSyms t := by
  match t with
  | [] => rfl
  | [c1] => rfl
  | c1 :: c2 :: t2 =>
    rw [toSyms_cons3, if_neg (by simp [hc])]

theorem toSyms_percentByte (b : Nat) (hb : b < 256) (t : List Char) :
    toSyms (percentByte b ++ t) = Sum.inl b :: toSyms t := by
  have e1 : hexCharVal (hexDigitU (b / 16)) = b / 16 := hexCharVal_hexDigitU _ (by omega)
  have e2 : hexCharVal (hexDigitU (b % 16)) = b % 16 := hexCharVal_hexDigitU _ (by omega)
  have hx1 : isHexChar (hexDigitU (b / 16)) = true := isHexChar_hexDigitU _ (by omega)
  have hx2 : isHexChar (hexDigitU (b % 16)) = true := isHexChar_hexDigitU _ (by omega)
  show toSyms ('%' :: hexDigitU (b / 16) :: hexDigitU (b % 16) :: t) = _
  rw [toSyms_cons3, if_pos (by simp [hx1, hx2])]
  rw [e1, e2, show 16 * (b / 16) + b % 16 = b by omega]

theorem plusToSpace_append (a b : List Char) :
    plusToSpace (a ++ b) = plusToSpace a ++ plusToSpace b :=
  List.map_append _ a b

theorem plusToSpace_percentByte (b : Nat) (hb : b < 256) :
    plusToSpace (percentByte b) = percentByte b := by
  have h1 := (hexDigitU_ne (b / 16) (by omega)).1
  have h2 := (hexDigitU_ne (b % 16) (by omega)).1
  simp [plusToSpace, percentByte, h1, h2]

theorem isAlwaysSafe_facts (n : Nat) (h : isAlwaysSafe n = true) :
    n < 128 ∧ n ≠ 37 ∧ n ≠ 43 ∧ n ≠ 32 ∧ n ≠ 38 ∧ n ≠ 61 ∧ n ≠ 35 ∧ n ≠ 63 := by
  simp only [isAlwaysSafe, Bool.or_eq_true, Bool.and_eq_true, decide_eq_true_eq] at h
  omega

theorem char_ne_of_toNat_ne {c d : Char} (h : c.toNat ≠ d.toNat) : c ≠ d :=
  fun he => h (he ▸ rfl)

theorem utf8EncodeChar_lt_256 (c : Char) : ∀ b ∈ utf8EncodeChar c, b < 256 := by
  have hv : c.toNat < 0xd800 ∨ (0xdfff < c.toNat ∧ c.toNat < 0x110000) := c.valid
  intro b hb
  simp only [utf8EncodeChar] at hb
  split_ifs at hb <;> simp [List.mem_cons] at hb <;> omega

theorem toSyms_percent_block (bs : List Nat) (hbs : ∀ b ∈ bs, b < 256) (t : List Char) :
    toSyms (plusToSpace (bs.flatMap percentByte) ++ t) = bs.map Sum.inl ++ toSyms t := by
  induction bs with
  | nil => simp [plusToSpace]
  | cons b bs ih =>
    have hb := hbs b (List.mem_cons_self _ _)
    rw [List.flatMap_cons, plusToSpace_append, List.append_assoc,
      plusToSpace_percentByte b hb, toSyms_percentByte b hb,
      ih (fun x hx => hbs x (List.mem_cons_of_mem _ hx)), List.map_cons, List.cons_append]

/-- Lexing the (plus-translated) quoting of one character produces exactly
its UTF-8 bytes. -/
theorem toSyms_plusToSpace_quotePlusChar (c : Char) (t : List Char) :
    toSyms (plusToSpace (quotePlusChar c) ++ t) =
      (utf8EncodeChar c).map Sum.inl ++ toSyms t := by
  unfold quotePlusChar
  by_cases hs : isAlwaysSafe c.toNat
  · rw [if_pos hs]
    obtain ⟨hlt, hpct, hplus, -⟩ := isAlwaysSafe_facts _ hs
    have hcp : c ≠ '%' := char_ne_of_toNat_ne hpct
    have hcplus : c ≠ '+' := char_ne_of_toNat_ne hplus
    show toSyms ((if c = '+' then ' ' else c) :: t) = _
    rw [if_neg hcplus, toSyms_not_escape _ _ hcp]
    show symOf c :: toSyms t = (utf8EncodeChar c).map Sum.inl ++ toSyms t
    unfold symOf utf8EncodeChar
    rw [if_pos hlt, if_pos hlt, List.map_cons, List.map_nil, List.cons_append,
      List.nil_append]
  · rw [if_neg hs]
    by_cases hsp : c = ' '
    · subst hsp
      rw [if_pos rfl]
      show toSyms (' ' :: t) = _
      rw [toSyms_not_escape _ _ (by decide)]
      rfl
    · rw [if_neg hsp]
      exact toSyms_percent_block (utf8EncodeChar c) (utf8EncodeChar_lt_256 c) t

/-- Lexing the (plus-translated) quoting of a string produces exactly its
UTF-8 byte sequence. -/
theorem toSyms_plusToSpace_quotePlus (s : List Char) :
    toSyms (plusToSpace (quotePlus s)) = (s.flatMap utf8EncodeChar).map Sum.inl := by
  induction s with
  | nil => rfl
  | cons c cs ih =>
    rw [show quotePlus (c :: cs) = quotePlusChar c ++ quotePlus cs from List.flatMap_cons ..]
    rw [plusToSpace_append, toSyms_plusToSpace_quotePlusChar, ih,
      List.flatMap_cons, List.map_append]

theorem decodeSyms_map_inl (bs : List Nat) (acc : List Nat) :
    decodeSyms acc (bs.map Sum.inl) = utf8DecodeReplace (acc.reverse ++ bs) := by
  induction bs generalizing acc with
  | nil => simp [decodeSyms]
  | cons b bs ih =>
    rw [List.map_cons]
    show decodeSyms (b :: acc) (bs.map Sum.inl) = _
    rw [ih]
    congr 1
    rw [List.reverse_cons, List.append_assoc, List.singleton_append]

/-- `unquote_plus` is a left inverse of `quote_plus`. -/
theorem unquotePlus_quotePlus (s : List Char) : unquotePlus (quotePlus s) = s := by
  unfold unquotePlus pyUnquote
  rw [toSyms_plusToSpace_quotePlus, decodeSyms_map_inl]
  simp only [List.reverse_nil, List.nil_append]
  exact utf8_decode_encode_list s

theorem splitAmp_ne_nil (l : List Char) : splitAmp l ≠ [] := by
  match l with
  | [] => simp [splitAmp]
  | c :: rest =>
    simp only [splitAmp]
    rcases h : splitAmp rest with _ | ⟨f, fs⟩
    · simp
    · by_cases hc : c = '&' <;> simp [hc]

theorem splitAmp_no_sep (l : List Char) (h : '&' ∉ l) : splitAmp l = [l] := by
  induction l with
  | nil => rfl
  | cons c rest ih =>
    have hc : c ≠ '&' := by
      rintro rfl
      exact h (List.mem_cons_self _ _)
    have hr : '&' ∉ rest := fun hm => h (List.mem_cons_of_mem _ hm)
    simp only [splitAmp, ih hr]
    rw [if_neg hc]

theorem splitAmp_sep_append (f t : List Char) (hf : '&' ∉ f) :
    splitAmp (f ++ '&' :: t) = f :: splitAmp t := by
  induction f with
  | nil =>
    simp only [List.nil_append, splitAmp]
    rcases h : splitAmp t with _ | ⟨g, gs⟩
    · exact absurd h (splitAmp_ne_nil t)
    · simp
  | cons c f2 ih =>
    have hc : c ≠ '&' := by
      rintro rfl
      exact hf (List.mem_cons_self _ _)
    have hf2 : '&' ∉ f2 := fun hm => hf (List.mem_cons_of_mem _ hm)
    rw [List.cons_append]
    simp only [splitAmp, ih hf2]
    rw [if_neg hc]

theorem splitFirstEq_append (a b : List Char) (ha : '=' ∉ a) :
    splitFirstEq (a ++ '=' :: b) = some (a, b) := by
  induction a with
  | nil => simp [splitFirstEq]
  | cons c a2 ih =>
    have hc : c ≠ '=' := by
      rintro rfl
      exact ha (List.mem_cons_self _ _)
    have ha2 : '=' ∉ a2 := fun hm => ha (List.mem_cons_of_mem _ hm)
    rw [List.cons_append]
    simp only [splitFirstEq, if_neg hc, ih ha2, Option.map_some']

theorem quotePlusChar_mem (c : Char) : ∀ x ∈ quotePlusChar c,
    x ≠ '&' ∧ x ≠ '=' ∧ x ≠ '#' ∧ x ≠ '?' := by
  intro x hx
  unfold quotePlusChar at hx
  by_cases hs : isAlwaysSafe c.toNat
  · rw [if_pos hs] at hx
    simp only [List.mem_singleton] at hx
    subst hx
    obtain ⟨-, -, -, -, h38, h61, h35, h63⟩ := isAlwaysSafe_facts _ hs
    exact ⟨char_ne_of_toNat_ne h38, char_ne_of_toNat_ne h61,
      char_ne_of_toNat_ne h35, char_ne_of_toNat_ne h63⟩
  · rw [if_neg hs] at hx
    by_cases hsp : c = ' '
    · rw [if_pos hsp] at hx
      simp only [List.mem_singleton] at hx
      subst hx
      exact ⟨by decide, by decide, by decide, by decide⟩
    · rw [if_neg hsp, List.mem_flatMap] at hx
      obtain ⟨b, hb, hxb⟩ := hx
      have hb256 := utf8EncodeChar_lt_256 c b hb
      have hd1 := hexDigitU_ne (b / 16) (by omega)
      have hd2 := hexDigitU_ne (b % 16) (by omega)
      simp only [percentByte, List.mem_cons, List.mem_singleton,
        List.not_mem_nil, or_false] at hxb
      rcases hxb with rfl | rfl | rfl
      · exact ⟨by decide, by decide, by decide, by decide⟩
      · exact ⟨hd1.2.1, hd1.2.2.1, hd1.2.2.2.1, hd1.2.2.2.2⟩
      · exact ⟨hd2.2.1, hd2.2.2.1, hd2.2.2.2.1, hd2.2.2.2.2⟩

theorem quotePlus_mem (s : List Char) : ∀ x ∈ quotePlus s,
    x ≠ '&' ∧ x ≠ '=' ∧ x ≠ '#' ∧ x ≠ '?' := by
  intro x hx
  rw [quotePlus, List.mem_flatMap] at hx
  obtain ⟨c, _, hxc⟩ := hx
  exact quotePlusChar_mem c x hxc

theorem quotePlusChar_ne_nil (c : Char) : quotePlusChar c ≠ [] := by
  unfold quotePlusChar
  by_cases hs : isAlwaysSafe c.toNat
  · simp [hs]
  · rw [if_neg hs]
    by_cases hsp : c = ' '
    · rw [if_pos hsp]
      simp
    · rw [if_neg hsp]
      intro hnil
      rcases hu : utf8EncodeChar c with _ | ⟨b, bs⟩
      · have hne : utf8EncodeChar c ≠ [] := by
          simp only [utf8EncodeChar]
          split_ifs <;> simp
        exact hne hu
      · rw [hu, List.flatMap_cons, List.append_eq_nil] at hnil
        exact absurd hnil.1 (by simp [percentByte])

theorem quotePlus_isEmpty (s : List Char) : (quotePlus s).isEmpty = s.isEmpty := by
  cases s with
  | nil => rfl
  | cons c cs =>
    have hne : quotePlus (c :: cs) ≠ [] := by
      rw [quotePlus, List.flatMap_cons]
      intro h
      rw [List.append_eq_nil] at h
      exact quotePlusChar_ne_nil c h.1
    rcases hq : quotePlus (c :: cs) with _ | ⟨x, xs⟩
    · exact absurd hq hne
    · rfl

theorem urlencodeChars_one (p : List Char × List Char) :
    urlencodeChars [p] = quotePlus p.1 ++ '=' :: quotePlus p.2 :=
  rfl

theorem urlencodeChars_cons2 (p q : List Char × List Char)
    (rest : List (List Char × List Char)) :
    urlencodeChars (p :: q :: rest) =
      quotePlus p.1 ++ '=' :: (quotePlus p.2 ++ '&' :: urlencodeChars (q :: rest)) := by
  simp only [urlencodeChars]
  simp [List.append_assoc]

theorem parseQsField_roundtrip (k v : List Char) :
    parseQsField (quotePlus k ++ '=' :: quotePlus v) =
      if v.isEmpty then none else some (k, v) := by
  unfold parseQsField
  have hne : (quotePlus k ++ '=' :: quotePlus v).isEmpty = false := by
    rcases hq : quotePlus k with _ | ⟨x, xs⟩ <;> simp
  rw [if_neg (by simp [hne])]
  have hk : '=' ∉ quotePlus k := fun hm => (quotePlus_mem k '=' hm).2.1 rfl
  rw [splitFirstEq_append _ _ hk]
  show (if (quotePlus v).isEmpty then none
        else some (unquotePlus (quotePlus k), unquotePlus (quotePlus v))) = _
  rw [quotePlus_isEmpty, unquotePlus_quotePlus, unquotePlus_quotePlus]

theorem field_no_amp (k v : List Char) : '&' ∉ quotePlus k ++ '=' :: quotePlus v := by
  intro hm
  rcases List.mem_append.mp hm with hm1 | hm2
  · exact (quotePlus_mem k '&' hm1).1 rfl
  · rcases List.mem_cons.mp hm2 with he | hm3
    · exact absurd he (by decide)
    · exact (quotePlus_mem v '&' hm3).1 rfl

/-- `parse_qsl(urlencode(params))` recovers the parameters whose values are
nonempty (blank values are dropped by default). -/
theorem parse_qsl_urlencode (params : List (List Char × List Char)) (h : params ≠ []) :
    parse_qsl_chars (urlencodeChars params) = params.filter (fun p => !p.2.isEmpty) := by
  induction params with
  | nil => exact absurd rfl h
  | cons p rest ih =>
    obtain ⟨k, v⟩ := p
    cases rest with
    | nil =>
      show parse_qsl_chars (quotePlus k ++ '=' :: quotePlus v) = _
      unfold parse_qsl_chars
      rw [splitAmp_no_sep _ (field_no_amp k v)]
      rw [List.filterMap_cons, parseQsField_roundtrip]
      by_cases hv : v.isEmpty
      · rw [if_pos hv]
        simp [List.filter_cons, hv]
      · rw [if_neg hv]
        simp [List.filter_cons, hv]
    | cons q rest2 =>
      rw [urlencodeChars_cons2]
      unfold parse_qsl_chars
      rw [show quotePlus k ++ '=' :: (quotePlus v ++ '&' :: urlencodeChars (q :: rest2)) =
          (quotePlus k ++ '=' :: quotePlus v) ++ '&' :: urlencodeChars (q :: rest2) from by
        simp]
      rw [splitAmp_sep_append _ _ (field_no_amp k v)]
      rw [List.filterMap_cons, parseQsField_roundtrip]
      have ihr : (splitAmp (urlencodeChars (q :: rest2))).filterMap parseQsField =
          (q :: rest2).filter (fun p => !p.2.isEmpty) := ih (by simp)
      by_cases hv : v.isEmpty
      · rw [if_pos hv]
        show (splitAmp (urlencodeChars (q :: rest2))).filterMap parseQsField = _
        rw [List.filter_cons_of_neg (by simp [hv])]
        exact ihr
      · rw [if_neg hv]
        show (k, v) :: (splitAmp (urlencodeChars (q :: rest2))).filterMap parseQsField = _
        rw [List.filter_cons_of_pos (by simp [hv]), ihr]

theorem find_key_of_nodup {ν : Type} (l : List (List Char × ν)) (k : List Char) (v : ν)
    (hnd : (l.map Prod.fst).Nodup) (hmem : (k, v) ∈ l) :
    l.find? (fun p => p.1 == k) = some (k, v) := by
  induction l with
  | nil => simp at hmem
  | cons q rest ih =>
    obtain ⟨a, b⟩ := q
    simp only [List.map_cons, List.nodup_cons] at hnd
    rcases List.mem_cons.mp hmem with heq | hmem2
    · cases heq
      rw [List.find?_cons_of_pos _ (by simp)]
    · have hka : a ≠ k := by
        rintro rfl
        exact hnd.1 (List.mem_map_of_mem Prod.fst hmem2)
      rw [List.find?_cons_of_neg _ (by simp [hka])]
      exact ih hnd.2 hmem2

theorem takeWhile_all {α : Type} (p : α → Bool) (l : List α) (h : ∀ x ∈ l, p x = true) :
    l.takeWhile p = l := by
  induction l with
  | nil => rfl
  | cons x xs ih =>
    rw [List.takeWhile_cons, if_pos (h x (List.mem_cons_self _ _)),
      ih (fun y hy => h y (List.mem_cons_of_mem _ hy))]

theorem afterFirstQmark_append (a t : List Char) (ha : '?' ∉ a) :
    afterFirstQmark (a ++ '?' :: t) = t := by
  induction a with
  | nil => simp [afterFirstQmark]
  | cons c a2 ih =>
    have hc : c ≠ '?' := by
      rintro rfl
      exact ha (List.mem_cons_self _ _)
    rw [List.cons_append]
    simp only [afterFirstQmark, if_neg hc]
    exact ih (fun hm => ha (List.mem_cons_of_mem _ hm))

theorem urlencodeChars_mem (params : List (List Char × List Char)) :
    ∀ x ∈ urlencodeChars params, x ≠ '#' ∧ x ≠ '?' := by
  induction params with
  | nil => simp [urlencodeChars]
  | cons p rest ih =>
    intro x hx
    cases rest with
    | nil =>
      show x ≠ '#' ∧ x ≠ '?'
      have hx2 : x ∈ quotePlus p.1 ++ '=' :: quotePlus p.2 := hx
      rcases List.mem_append.mp hx2 with hm1 | hm2
      · exact ⟨(quotePlus_mem p.1 x hm1).2.2.1, (quotePlus_mem p.1 x hm1).2.2.2⟩
      · rcases List.mem_cons.mp hm2 with rfl | hm3
        · exact ⟨by decide, by decide⟩
        · exact ⟨(quotePlus_mem p.2 x hm3).2.2.1, (quotePlus_mem p.2 x hm3).2.2.2⟩
    | cons q rest2 =>
      rw [urlencodeChars_cons2] at hx
      have hx2 : x ∈ quotePlus p.1 ++
          '=' :: (quotePlus p.2 ++ '&' :: urlencodeChars (q :: rest2)) := hx
      rcases List.mem_append.mp hx2 with hm1 | hm2
      · exact ⟨(quotePlus_mem p.1 x hm1).2.2.1, (quotePlus_mem p.1 x hm1).2.2.2⟩
      · rcases List.mem_cons.mp hm2 with rfl | hm3
        · exact ⟨by decide, by decide⟩
        · rcases List.mem_append.mp hm3 with hm4 | hm5
          · exact ⟨(quotePlus_mem p.2 x hm4).2.2.1, (quotePlus_mem p.2 x hm4).2.2.2⟩
          · rcases List.mem_cons.mp hm5 with rfl | hm6
            · exact ⟨by decide, by decide⟩
            · exact ih x hm6

theorem isAlwaysSafe_printable (n : Nat) (h : isAlwaysSafe n = true) :
    0x20 < n ∧ n < 0x80 ∧ n ≠ 91 ∧ n ≠ 93 := by
  simp only [isAlwaysSafe, Bool.or_eq_true, Bool.and_eq_true, decide_eq_true_eq] at h
  omega

theorem hexDigitU_printable : ∀ d, d < 16 →
    0x20 < (hexDigitU d).toNat ∧ (hexDigitU d).toNat < 0x80 ∧
    hexDigitU d ≠ '[' ∧ hexDigitU d ≠ ']' := by decide

/-- Every character `quote_plus` can emit is printable ASCII and is not a
square bracket. -/
theorem quotePlusChar_printable (c : Char) : ∀ x ∈ quotePlusChar c,
    0x20 < x.toNat ∧ x.toNat < 0x80 ∧ x ≠ '[' ∧ x ≠ ']' := by
  intro x hx
  unfold quotePlusChar at hx
  by_cases hs : isAlwaysSafe c.toNat
  · rw [if_pos hs] at hx
    simp only [List.mem_singleton] at hx
    subst hx
    obtain ⟨h32, h128, h91, h93⟩ := isAlwaysSafe_printable _ hs
    exact ⟨h32, h128, char_ne_of_toNat_ne h91, char_ne_of_toNat_ne h93⟩
  · rw [if_neg hs] at hx
    by_cases hsp : c = ' '
    · rw [if_pos hsp] at hx
      simp only [List.mem_singleton] at hx
      subst hx
      exact ⟨by decide, by decide, by decide, by decide⟩
    · rw [if_neg hsp, List.mem_flatMap] at hx
      obtain ⟨b, hb, hxb⟩ := hx
      have hb256 := utf8EncodeChar_lt_256 c b hb
      have hd1 := hexDigitU_printable (b / 16) (by omega)
      have hd2 := hexDigitU_printable (b % 16) (by omega)
      simp only [percentByte, List.mem_cons, List.mem_singleton,
        List.not_mem_nil, or_false] at hxb
      rcases hxb with rfl | rfl | rfl
      · exact ⟨by decide, by decide, by decide, by decide⟩
      · exact hd1
      · exact hd2

theorem quotePlus_printable (s : List Char) : ∀ x ∈ quotePlus s,
    0x20 < x.toNat ∧ x.toNat < 0x80 ∧ x ≠ '[' ∧ x ≠ ']' := by
  intro x hx
  rw [quotePlus, List.mem_flatMap] at hx
  obtain ⟨c, _, hxc⟩ := hx
  exact quotePlusChar_printable c x hxc

/-- Every character of an encoded query string is printable ASCII and not a
square bracket. -/
theorem urlencodeChars_printable (params : List (List Char × List Char)) :
    ∀ x ∈ urlencodeChars params,
      0x20 < x.toNat ∧ x.toNat < 0x80 ∧ x ≠ '[' ∧ x ≠ ']' := by
  induction params with
  | nil => simp [urlencodeChars]
  | cons p rest ih =>
    intro x hx
    cases rest with
    | nil =>
      have hx2 : x ∈ quotePlus p.1 ++ '=' :: quotePlus p.2 := hx
      rcases List.mem_append.mp hx2 with hm1 | hm2
      · exact quotePlus_printable p.1 x hm1
      · rcases List.mem_cons.mp hm2 with rfl | hm3
        · exact ⟨by decide, by decide, by decide, by decide⟩
        · exact quotePlus_printable p.2 x hm3
    | cons q rest2 =>
      rw [urlencodeChars_cons2] at hx
      rcases List.mem_append.mp hx with hm1 | hm2
      · exact quotePlus_printable p.1 x hm1
      · rcases List.mem_cons.mp hm2 with rfl | hm3
        · exact ⟨by decide, by decide, by decide, by decide⟩
        · rcases List.mem_append.mp hm3 with hm4 | hm5
          · exact quotePlus_printable p.2 x hm4
          · rcases List.mem_cons.mp hm5 with rfl | hm6
            · exact ⟨by decide, by decide, by decide, by decide⟩
            · exact ih x hm6

/-- On input whose characters all lie above the C0/space range, `urlsplit`'s
sanitisation is the identity. -/
theorem urlSanitize_eq_self (l : List Char) (h : ∀ c ∈ l, 0x20 < c.toNat) :
    urlSanitize l = l := by
  unfold urlSanitize
  have hdrop : l.dropWhile (fun c => c.toNat ≤ 0x20) = l := by
    cases l with
    | nil => rfl
    | cons c t =>
      have hc := h c (List.mem_cons_self _ _)
      rw [List.dropWhile_cons, if_neg (by simp only [decide_eq_true_eq]; omega)]
  rw [hdrop]
  refine List.filter_eq_self.mpr ?_
  intro a ha
  have h32 := h a ha
  simp only [decide_eq_true_eq]
  refine ⟨?_, ?_, ?_⟩ <;> rintro rfl <;> exact absurd h32 (by decide)

theorem mem_urlSanitize (l : List Char) (x : Char) (hx : x ∈ urlSanitize l) : x ∈ l := by
  unfold urlSanitize at hx
  exact (List.dropWhile_sublist _).subset ((List.filter_sublist _).subset hx)

theorem mem_removeScheme (l : List Char) (x : Char) (hx : x ∈ removeScheme l) : x ∈ l := by
  match l with
  | [] => exact hx
  | c :: rest =>
    simp only [removeScheme] at hx
    split at hx
    · exact List.mem_cons_of_mem _
        ((List.dropWhile_sublist _).subset ((List.drop_sublist _ _).subset hx))
    · exact hx

theorem mem_splitNetloc_fst (l : List Char) (x : Char) (hx : x ∈ (splitNetloc l).1) :
    x ∈ l := by
  match l with
  | [] => simp [splitNetloc] at hx
  | [a] => simp [splitNetloc] at hx
  | a :: b :: rest =>
    simp only [splitNetloc] at hx
    split at hx
    · exact List.mem_cons_of_mem _ (List.mem_cons_of_mem _
        ((List.takeWhile_sublist _).subset hx))
    · simp at hx

/-- When `x` occurs in `l`, dropping the prefix of elements different from
`x` reaches an occurrence of `x`. -/
theorem dropWhile_ne_mem (x : Char) (l : List Char) (hx : x ∈ l) :
    l.dropWhile (fun d => d ≠ x) = x :: (l.dropWhile (fun d => d ≠ x)).tail := by
  induction l with
  | nil => exact absurd hx (List.not_mem_nil x)
  | cons a t ih =>
    by_cases hax : a = x
    · subst hax
      rw [List.dropWhile_cons, if_neg (by simp)]
      rfl
    · have hxt : x ∈ t := by
        rcases List.mem_cons.mp hx with h | h
        · exact absurd h.symm hax
        · exact h
      rw [List.dropWhile_cons, if_pos (by simp [hax])]
      exact ih hxt

/-- The scheme-and-colon prefix `removeScheme` drops contains neither `?`
nor `#`. -/
theorem removeScheme_decomp (l : List Char) :
    ∃ p, l = p ++ removeScheme l ∧ ∀ c ∈ p, c ≠ '?' ∧ c ≠ '#' := by
  match l with
  | [] => exact ⟨[], rfl, by simp⟩
  | c :: rest =>
    by_cases hcond : c.isAlpha ∧ ':' ∈ rest ∧
        (rest.takeWhile (fun d => d ≠ ':')).all isSchemeChar
    · obtain ⟨hal, hmem, hall⟩ := hcond
      have hds := dropWhile_ne_mem ':' rest hmem
      have hrs : removeScheme (c :: rest) = (rest.dropWhile (fun d => d ≠ ':')).drop 1 := by
        simp only [removeScheme]
        rw [if_pos ⟨hal, hmem, hall⟩]
      refine ⟨c :: rest.takeWhile (fun d => d ≠ ':') ++ [':'], ?_, ?_⟩
      · have h1 : rest.takeWhile (fun d => d ≠ ':') ++
            rest.dropWhile (fun d => d ≠ ':') = rest := by
          simp [List.takeWhile_append_dropWhile]
        have h2 : (rest.takeWhile (fun d => d ≠ ':') ++ [':']) ++
            (rest.dropWhile (fun d => d ≠ ':')).drop 1 = rest := by
          rw [List.append_assoc, List.singleton_append, List.drop_one, ← hds]
          exact h1
        rw [hrs]
        show c :: rest = c :: ((rest.takeWhile (fun d => d ≠ ':') ++ [':']) ++
          (rest.dropWhile (fun d => d ≠ ':')).drop 1)
        rw [h2]
      · intro y hy
        rcases List.mem_cons.mp hy with rfl | hy2
        · constructor
          · rintro rfl
            exact absurd hal (by decide)
          · rintro rfl
            exact absurd hal (by decide)
        · rcases List.mem_append.mp hy2 with hy3 | hy4
          · have hsc : isSchemeChar y = true := by
              have := List.all_eq_true.mp hall y hy3
              exact this
            constructor
            · rintro rfl
              exact absurd hsc (by decide)
            · rintro rfl
              exact absurd hsc (by decide)
          · rw [List.mem_singleton] at hy4
            subst hy4
            exact ⟨by decide, by decide⟩
    · have hrs : removeScheme (c :: rest) = c :: rest := by
        simp only [removeScheme]
        rw [if_neg hcond]
      exact ⟨[], by rw [hrs, List.nil_append], fun y hy => absurd hy (List.not_mem_nil y)⟩

/-- The `//`-plus-authority prefix `_splitnetloc` drops contains neither `?`
nor `#`. -/
theorem splitNetloc_decomp (l : List Char) :
    ∃ p, l = p ++ (splitNetloc l).2 ∧ ∀ c ∈ p, c ≠ '?' ∧ c ≠ '#' := by
  match l with
  | [] => exact ⟨[], rfl, fun c hc => absurd hc (List.not_mem_nil c)⟩
  | [a] => exact ⟨[], rfl, fun c hc => absurd hc (List.not_mem_nil c)⟩
  | a :: b :: rest =>
    by_cases hab : a = '/' ∧ b = '/'
    · obtain ⟨rfl, rfl⟩ := hab
      have hsp : (splitNetloc ('/' :: '/' :: rest)).2 = rest.dropWhile notNetlocDelim :=
        rfl
      refine ⟨'/' :: '/' :: rest.takeWhile notNetlocDelim, ?_, ?_⟩
      · rw [hsp, List.cons_append, List.cons_append]
        have h1 : rest.takeWhile notNetlocDelim ++ rest.dropWhile notNetlocDelim = rest := by
          simp [List.takeWhile_append_dropWhile]
        rw [h1]
      · intro y hy
        rcases List.mem_cons.mp hy with rfl | hy2
        · exact ⟨by decide, by decide⟩
        · rcases List.mem_cons.mp hy2 with rfl | hy3
          · exact ⟨by decide, by decide⟩
          · have hnd : notNetlocDelim y = true := List.mem_takeWhile_imp hy3
            constructor
            · rintro rfl
              exact absurd hnd (by decide)
            · rintro rfl
              exact absurd hnd (by decide)
    · have hsp : (splitNetloc (a :: b :: rest)).2 = a :: b :: rest := by
        simp only [splitNetloc]
        rw [if_neg hab]
      exact ⟨[], by rw [hsp, List.nil_append], fun y hy => absurd hy (List.not_mem_nil y)⟩

theorem afterFirstQmark_cons_ne (c : Char) (t : List Char) (hq : c ≠ '?') :
    afterFirstQmark (c :: t) = afterFirstQmark t := by
  simp only [afterFirstQmark]
  rw [if_neg hq]

theorem urlQuery_cons_skip (c : Char) (t : List Char) (hq : c ≠ '?') (hh : c ≠ '#') :
    urlQuery (c :: t) = urlQuery t := by
  unfold urlQuery
  rw [List.takeWhile_cons, if_pos (by simp [hh]), afterFirstQmark_cons_ne _ _ hq]

/-- Removing a prefix free of `?` and `#` does not change the extracted
query. -/
theorem urlQuery_append_skip (p t : List Char) (h : ∀ c ∈ p, c ≠ '?' ∧ c ≠ '#') :
    urlQuery (p ++ t) = urlQuery t := by
  induction p with
  | nil => rfl
  | cons c p2 ih =>
    rw [List.cons_append, urlQuery_cons_skip c _ (h c (List.mem_cons_self _ _)).1
      (h c (List.mem_cons_self _ _)).2]
    exact ih (fun x hx => h x (List.mem_cons_of_mem _ hx))

/-- The guarded `split('#', 1)` equals unconditional truncation at the first
`#`. -/
theorem fragSplit_eq (rest : List Char) :
    fragSplit rest = rest.takeWhile (fun c => c ≠ '#') := by
  unfold fragSplit
  by_cases h : '#' ∈ rest
  · rw [if_pos h]
  · rw [if_neg h]
    refine (takeWhile_all _ _ ?_).symm
    intro x hx
    simp only [decide_eq_true_eq]
    rintro rfl
    exact h hx

/-- The guarded `split('?', 1)` computes `afterFirstQmark`. -/
theorem querySplit_eq_afterFirstQmark (u : List Char) :
    querySplit u = afterFirstQmark u := by
  induction u with
  | nil => rfl
  | cons c t ih =>
    by_cases hc : c = '?'
    · subst hc
      have h1 : afterFirstQmark ('?' :: t) = t := by
        simp [afterFirstQmark]
      rw [h1]
      unfold querySplit
      rw [if_pos (List.mem_cons_self _ _), List.dropWhile_cons, if_neg (by simp),
        List.drop_one, List.tail_cons]
    · rw [afterFirstQmark_cons_ne _ _ hc, ← ih]
      unfold querySplit
      have hmem : ('?' ∈ c :: t) ↔ ('?' ∈ t) := by
        constructor
        · intro h
          rcases List.mem_cons.mp h with h1 | h1
          · exact absurd h1.symm hc
          · exact h1
        · exact List.mem_cons_of_mem _
      by_cases hm : '?' ∈ t
      · rw [if_pos (hmem.mpr hm), if_pos hm, List.dropWhile_cons,
          if_pos (by simp [hc])]
      · rw [if_neg (fun hh => hm (hmem.mp hh)), if_neg hm]

/-- A URL without square brackets never takes `urlsplit`'s `ValueError`
path. -/
theorem urlsplit_query_no_error (url : String)
    (hb1 : '[' ∉ url.data) (hb2 : ']' ∉ url.data) :
    urlsplit_query url = .ok (restQuery (urlsplitRest url.data)) := by
  unfold urlsplit_query
  rw [if_neg ?hc]
  case hc =>
    rintro (⟨hm, -⟩ | ⟨hm, -⟩)
    · exact hb1 (mem_urlSanitize _ _ (mem_removeScheme _ _ (mem_splitNetloc_fst _ _ hm)))
    · exact hb2 (mem_urlSanitize _ _ (mem_removeScheme _ _ (mem_splitNetloc_fst _ _ hm)))

/-- On a bracket-free URL whose characters lie above the C0/space range, the
staged `urlsplit` pipeline extracts exactly the one-pass `urlQuery`. -/
theorem urlsplit_query_clean (url : String)
    (h : ∀ c ∈ url.data, 0x20 < c.toNat ∧ c ≠ '[' ∧ c ≠ ']') :
    urlsplit_query url = .ok (urlQuery url.data) := by
  have hb1 : '[' ∉ url.data := fun hm => (h _ hm).2.1 rfl
  have hb2 : ']' ∉ url.data := fun hm => (h _ hm).2.2 rfl
  rw [urlsplit_query_no_error url hb1 hb2]
  have hsan : urlSanitize url.data = url.data :=
    urlSanitize_eq_self _ (fun c hc => (h c hc).1)
  obtain ⟨p2, hp2, hq2⟩ := splitNetloc_decomp (removeScheme (urlSanitize url.data))
  obtain ⟨p1, hp1, hq1⟩ := removeScheme_decomp (urlSanitize url.data)
  have e1 : restQuery (urlsplitRest url.data) = urlQuery (urlsplitRest url.data) := by
    unfold restQuery urlQuery
    rw [querySplit_eq_afterFirstQmark, fragSplit_eq]
  have e2 : urlQuery (urlsplitRest url.data) =
      urlQuery (removeScheme (urlSanitize url.data)) := by
    conv_rhs => rw [hp2]
    exact (urlQuery_append_skip p2 _ hq2).symm
  have e3 : urlQuery (removeScheme (urlSanitize url.data)) =
      urlQuery (urlSanitize url.data) := by
    conv_rhs => rw [hp1]
    exact (urlQuery_append_skip p1 _ hq1).symm
  rw [e1, e2, e3, hsan]

/-- Every character of a login URL built over a clean provider is above the
C0/space range and is not a square bracket. -/
theorem login_url_chars_clean (provider : List Char)
    (params : List (List Char × List Char))
    (hprov : ∀ c ∈ provider, 0x20 < c.toNat ∧ c ≠ '[' ∧ c ≠ ']') :
    ∀ c ∈ login_url_chars provider params, 0x20 < c.toNat ∧ c ≠ '[' ∧ c ≠ ']' := by
  have hlogin : ∀ c ∈ "/login".data, 0x20 < c.toNat ∧ c ≠ '[' ∧ c ≠ ']' := by decide
  intro x hx
  simp only [login_url_chars] at hx
  by_cases hemp : params.isEmpty
  · rw [if_pos hemp] at hx
    rcases List.mem_append.mp hx with hm | hm
    · exact hprov x hm
    · exact hlogin x hm
  · rw [if_neg hemp] at hx
    rcases List.mem_append.mp hx with hm | hm
    · rcases List.mem_append.mp hm with hm1 | hm2
      · exact hprov x hm1
      · exact hlogin x hm2
    · rcases List.mem_cons.mp hm with rfl | hm2
      · exact ⟨by decide, by decide, by decide⟩
      · have hp := urlencodeChars_printable params x hm2
        exact ⟨hp.1, hp.2.2.1, hp.2.2.2⟩

/-- The query string `urlparse` extracts from a built login URL is exactly
the encoded parameter string, provided the provider base URL contains no `?`
or `#`. -/
theorem urlQuery_login_url (provider : List Char) (params : List (List Char × List Char))
    (hq : '?' ∉ provider) (hh : '#' ∉ provider) (hne : params ≠ []) :
    urlQuery (login_url_chars provider params) = urlencodeChars params := by
  unfold login_url_chars
  have hemp : params.isEmpty = false := by
    rcases params with _ | ⟨p, rest⟩
    · exact absurd rfl hne
    · rfl
  rw [if_neg (by simp [hemp])]
  unfold urlQuery
  rw [takeWhile_all]
  · rw [afterFirstQmark_append]
    intro hm
    rcases List.mem_append.mp hm with hm1 | hm2
    · exact hq hm1
    · exact absurd hm2 (by decide)
  · intro x hx
    simp only [decide_eq_true_eq]
    rcases List.mem_append.mp hx with hm1 | hm2
    · rcases List.mem_append.mp hm1 with hm3 | hm4
      · intro hxh
        exact hh (hxh ▸ hm3)
      · intro hxh
        subst hxh
        exact absurd hm4 (by decide)
    · rcases List.mem_cons.mp hm2 with rfl | hm3
      · decide
      · exact (urlencodeChars_mem params x hm3).1

theorem string_data_injective : Function.Injective String.data := by
  intro a b hab
  cases a
  cases b
  simp_all

/-- C8 counterexample: the claim says ticket extraction never fails on a
malformed URL, but `urlparse` raises `ValueError("Invalid IPv6 URL")` when
the URL's authority contains an unbalanced square bracket, so
`ticket_from_url` propagates that error instead of returning a string. -/
theorem c8_invalid_url_counterexample :
    ticket_from_url "http://[x?ticket=T" = .error (.valueError "Invalid IPv6 URL") := by
  rfl

/-- C8 (amended): on URLs `urlparse` accepts, `ticket_from_url` returns the
`ticket` query parameter when present and the empty string otherwise, and
extracting the ticket from a login URL built over a mapping containing
`ticket = T` round-trips to exactly `T`, for any non-empty `T` without `&` or
`=` and any provider base URL of printable ASCII without `?`, `#` or square
brackets.  However, `ticket_from_url` is not total: `urlparse` raises
`ValueError` on a URL whose authority has an unbalanced bracket.  On
all-ASCII URLs free of square brackets it never fails. -/
theorem c8_ticket_roundtrip_amended (provider : String) (params : List (String × String))
    (T : String)
    (hprov : ∀ c ∈ provider.data, 0x20 < c.toNat ∧ c.toNat < 0x80 ∧
        c ≠ '?' ∧ c ≠ '#' ∧ c ≠ '[' ∧ c ≠ ']')
    (hmem : ("ticket", T) ∈ params)
    (hnodup : (params.map Prod.fst).Nodup)
    (hT : T ≠ "") (_hamp : '&' ∉ T.data) (_heq : '=' ∉ T.data) :
    ticket_from_url (login_url provider params) = .ok T ∧
    (∀ url : String, (∀ c ∈ url.data, c.toNat < 0x80 ∧ c ≠ '[' ∧ c ≠ ']') →
        ∃ t, ticket_from_url url = .ok t) ∧
    (∀ url : String,
        (∀ c ∈ url.data, 0x20 < c.toNat ∧ c.toNat < 0x80 ∧ c ≠ '[' ∧ c ≠ ']') →
        (∀ p ∈ parse_qsl_chars (urlQuery url.data), p.1 ≠ "ticket".data) →
        ticket_from_url url = .ok "") := by
  refine ⟨?_, ?_, ?_⟩
  · have hpne : params ≠ [] := by
      rintro rfl
      simp at hmem
    have hmpne : params.map (fun p : String × String => (p.1.data, p.2.data)) ≠ [] := by
      intro hnil
      rw [List.map_eq_nil_iff] at hnil
      exact hpne hnil
    have hqm : '?' ∉ provider.data := fun hm => (hprov _ hm).2.2.1 rfl
    have hhm : '#' ∉ provider.data := fun hm => (hprov _ hm).2.2.2.1 rfl
    have hclean : ∀ c ∈ (login_url provider params).data,
        0x20 < c.toNat ∧ c ≠ '[' ∧ c ≠ ']' :=
      login_url_chars_clean provider.data _ (fun c hc =>
        ⟨(hprov c hc).1, (hprov c hc).2.2.2.2.1, (hprov c hc).2.2.2.2.2⟩)
    have hquery := urlsplit_query_clean _ hclean
    unfold ticket_from_url
    rw [hquery]
    show Except.ok (String.mk (ticketOfQuery (urlQuery (login_url provider params).data)))
      = Except.ok T
    have hval : String.mk (ticketOfQuery (urlQuery (login_url provider params).data)) = T := by
      show String.mk (ticketOfQuery (urlQuery (login_url_chars provider.data
        (params.map (fun p : String × String => (p.1.data, p.2.data)))))) = T
      unfold ticketOfQuery
      rw [urlQuery_login_url provider.data _ hqm hhm hmpne]
      rw [parse_qsl_urlencode _ hmpne]
      have hmem2 : ("ticket".data, T.data) ∈
          params.map (fun p : String × String => (p.1.data, p.2.data)) :=
        List.mem_map_of_mem _ hmem
      have hTne : T.data ≠ [] := by
        intro hd
        exact hT (string_data_injective hd)
      have hmnd : ((params.map (fun p : String × String => (p.1.data, p.2.data))).map
          Prod.fst).Nodup := by
        rw [List.map_map]
        have hcomp : (Prod.fst ∘ fun p : String × String => (p.1.data, p.2.data)) =
            (String.data ∘ Prod.fst) := rfl
        rw [hcomp, ← List.map_map]
        exact hnodup.map string_data_injective
      have hkeysnd : (((params.map (fun p : String × String => (p.1.data, p.2.data))).filter
          (fun p => !p.2.isEmpty)).map Prod.fst).Nodup :=
        hmnd.sublist (List.Sublist.map Prod.fst (List.filter_sublist _))
      have hmemf : ("ticket".data, T.data) ∈
          (params.map (fun p : String × String => (p.1.data, p.2.data))).filter
            (fun p => !p.2.isEmpty) := by
        rw [List.mem_filter]
        refine ⟨hmem2, ?_⟩
        rcases hTd : T.data with _ | ⟨c, cs⟩
        · exact absurd hTd hTne
        · simp
      rw [find_key_of_nodup _ _ T.data hkeysnd hmemf]
    rw [hval]
  · intro url hurl
    have hb1 : '[' ∉ url.data := fun hm => (hurl _ hm).2.1 rfl
    have hb2 : ']' ∉ url.data := fun hm => (hurl _ hm).2.2 rfl
    refine ⟨⟨ticketOfQuery (restQuery (urlsplitRest url.data))⟩, ?_⟩
    unfold ticket_from_url
    rw [urlsplit_query_no_error url hb1 hb2]
  · intro url hurl habs
    have hquery := urlsplit_query_clean url (fun c hc =>
      ⟨(hurl c hc).1, (hurl c hc).2.2.1, (hurl c hc).2.2.2⟩)
    unfold ticket_from_url
    rw [hquery]
    show Except.ok (String.mk (ticketOfQuery (urlQuery url.data))) = Except.ok ""
    unfold ticketOfQuery
    rcases hf : (parse_qsl_chars (urlQuery url.data)).find? (fun p => p.1 == "ticket".data)
      with _ | p
    · rw [hf]
    · have hps := List.find?_some hf
      have hpmem := List.mem_of_find?_eq_some hf
      exact absurd (by simpa using hps) (habs p hpmem)

/-- C8 witness: a concrete provider and parameter mapping round-trip the
ticket `ST-123456-789` along the non-error path. -/
theorem c8_ticket_roundtrip_amended_witness :
    ticket_from_url (login_url "https://cas.example.com/cas"
      [("service", "https://s.example.com/?x=1"), ("ticket", "ST-123456-789")]) =
      .ok "ST-123456-789" :=
  (c8_ticket_roundtrip_amended "https://cas.example.com/cas"
    [("service", "https://s.example.com/?x=1"), ("ticket", "ST-123456-789")]
    "ST-123456-789" (by decide) (by simp) (by decide) (by decide) (by decide)
    (by decide)).1

end PycasSso



